import Mathlib

/-!
# MACE kernels: CPU MatMul, CPU bilinear resize, OpenCL element-wise dispatch

A shallow embedding of

* `mace/kernels/matmul.h` (`MatMulFunctor`, CPU variant),
* `mace/kernels/resize_bilinear.h` (`CalculateResizeScale`,
  `ComputeInterpolationWeights`, `ComputeLerp`, `ResizeImage`,
  `ResizeBilinearFunctor`, CPU variant),
* `mace/ops/opencl/image/eltwise.h` (`EltwiseKernel::Compute`),

followed by theorems about them.

Conventions.  `index_t` is `Int`.  A buffer is a total map from element offsets
(relative to the data pointer) to values, so pointer arithmetic is integer
arithmetic on offsets.  `float` values are taken in exact arithmetic: any
semiring for MatMul, `ℚ` for resize.  Counted `for` loops are
the recursions `loopUp` / `loopDown` over the trip count; loop counters are
unbounded integers.  The resize loops also come in a logged form that records
the offsets they read and write.
-/

namespace mace

/-! ## Failures, tensors -/

/-- Ways in which a call can stop without returning `MACE_SUCCESS`. -/
inductive Failure where
  /-- A failed `MACE_CHECK(cond) << msg`; the payload is the streamed message. -/
  | check (msg : String)
  /-- A `dim(i)` read with `i` not smaller than the rank of the tensor. -/
  | dimOutOfRange
  /-- A non-success `MaceStatus` handed back through `MACE_RETURN_IF_ERROR`. -/
  | status (what : String)
  deriving DecidableEq, Repr

/-- Modelled from the spec: the `Tensor` of `mace/core/tensor.h` (not among the
sources).  A tensor owns a shape (ordered sequence of `index_t`) and a typed
block of data, here the map from element offsets to values. -/
structure Tensor (α : Type) where
  /-- The logical shape. -/
  shape : List Int
  /-- The backing buffer, by element offset. -/
  data : Int → α

namespace Tensor

variable {α : Type}

/-- Modelled from the spec: `dim_size()`, the rank. -/
def dim_size (t : Tensor α) : Int := (t.shape.length : Int)

/-- Modelled from the spec: `dim(i)`.  A read past the rank has no value; it is
recorded as `Failure.dimOutOfRange`. -/
def dim (t : Tensor α) (i : Nat) : Except Failure Int :=
  match t.shape.get? i with
  | some d => Except.ok d
  | none => Except.error Failure.dimOutOfRange

/-- Modelled from the spec: `size()`, the total element count. -/
def size (t : Tensor α) : Int := t.shape.foldl (fun acc d => acc * d) 1

/-- Modelled from the spec: `Resize(shape)`.  It sets the logical shape; the
elements of the buffer are not initialised by it. -/
def Resize (t : Tensor α) (shape : List Int) : Tensor α :=
  { t with shape := shape }

/-- Row-major element `t[n, h, w]` of a tensor whose last three extents are
`(d1, d2)` past the leading one: offset `(n * d1 + h) * d2 + w`. -/
def at3 (t : Tensor α) (d1 d2 : Int) (n h w : Int) : α :=
  t.data ((n * d1 + h) * d2 + w)

/-- Row-major element `t[b, y, x, c]` of a tensor with trailing extents
`(d1, d2, d3)`: offset `((b * d1 + y) * d2 + x) * d3 + c`. -/
def at4 (t : Tensor α) (d1 d2 d3 : Int) (b y x c : Int) : α :=
  t.data (((b * d1 + y) * d2 + x) * d3 + c)

end Tensor

/-! ## Loops and stores -/

/-- The loop `for (i = 0; i < n; ++i) body(i)` with trip count `n`: the body
runs at `0, 1, ..., n - 1` in this order. -/
def loopUp {σ : Type} : Nat → (Int → σ → σ) → σ → σ
  | 0, _, s => s
  | k + 1, body, s => body (k : Int) (loopUp k body s)

/-- The loop `for (i = n - 1; i >= 0; --i) body(i)`: the body runs at
`n - 1, ..., 1, 0` in this order. -/
def loopDown {σ : Type} : Nat → (Int → σ → σ) → σ → σ
  | 0, _, s => s
  | k + 1, body, s => loopDown k body (body (k : Int) s)

/-- The store `p[off] = v`. -/
def store {β : Type} (mem : Int → β) (off : Int) (v : β) : Int → β :=
  fun j => if j = off then v else mem j

/-! ## `mace/kernels/matmul.h` -/

section MatMul

variable {α : Type} [Semiring α]

/-- The variables of `MatMulFunctor::operator()` that live across the loops:
the two input base pointers, the output pointer and the output buffer. -/
structure MatMulState (α : Type) where
  a_ptr_base : Int
  b_ptr_base : Int
  c_ptr : Int
  c : Int → α

/-- The variables of the `k` loop: the read pointers `a_ptr`, `b_ptr` (locals
of the `w` loop body) and the output buffer. -/
structure MatMulInner (α : Type) where
  a_ptr : Int
  b_ptr : Int
  c : Int → α

/-- Body of the `k` loop: `*c_ptr += *a_ptr * *b_ptr; a_ptr++; b_ptr += width;`. -/
def matmulK (a b : Int → α) (width : Int) (c_ptr : Int) (_k : Int)
    (s : MatMulInner α) : MatMulInner α :=
  { a_ptr := s.a_ptr + 1
    b_ptr := s.b_ptr + width
    c := store s.c c_ptr (s.c c_ptr + a s.a_ptr * b s.b_ptr) }

/-- Body of the `w` loop, with `h` the current row. -/
def matmulW (a b : Int → α) (width K : Int) (h : Int) (w : Int)
    (s : MatMulState α) : MatMulState α :=
  let s1 : MatMulInner α :=
    { a_ptr := s.a_ptr_base + h * K
      b_ptr := s.b_ptr_base + w
      c := store s.c s.c_ptr 0 }
  let s2 := loopUp K.toNat (matmulK a b width s.c_ptr) s1
  { s with c := s2.c, c_ptr := s.c_ptr + 1 }

/-- Body of the `h` loop. -/
def matmulH (a b : Int → α) (width K : Int) (h : Int) (s : MatMulState α) :
    MatMulState α :=
  loopUp width.toNat (matmulW a b width K h) s

/-- Body of the batch loop `i`. -/
def matmulN (a b : Int → α) (height width K : Int) (_i : Int)
    (s : MatMulState α) : MatMulState α :=
  let s1 := loopUp height.toNat (matmulH a b width K) s
  { s1 with
    a_ptr_base := s1.a_ptr_base + height * K
    b_ptr_base := s1.b_ptr_base + K * width }

/-- The CPU `MatMulFunctor::operator()(A, B, C, future)`; the result is `C`
after the call. -/
def MatMulFunctor (A B C : Tensor α) : Except Failure (Tensor α) := do
  let c_shape := [← A.dim 0, ← A.dim 1, ← B.dim 2, 1]
  let C := C.Resize c_shape
  let N ← C.dim 0
  let height ← C.dim 1
  let width ← C.dim 2
  let K ← A.dim 2
  let s0 : MatMulState α :=
    { a_ptr_base := 0, b_ptr_base := 0, c_ptr := 0, c := C.data }
  let s := loopUp N.toNat (matmulN A.data B.data height width K) s0
  return { C with data := s.c }

/-- The accumulation `sum over k < K of a[ab + k] * b[bb + k * width]`, the value
one output cell receives when the read pointers start at `ab` and `bb`. -/
def dotAt (a b : Int → α) (width : Int) (K : Nat) (ab bb : Int) : α :=
  Finset.sum (Finset.range K) (fun k => a (ab + (k : Int)) * b (bb + (k : Int) * width))

end MatMul

/-! ## `mace/kernels/resize_bilinear.h` -/

/-- One entry of the interpolation cache. -/
structure CachedInterpolation where
  /-- Lower source index used in the interpolation. -/
  lower : Int
  /-- Upper source index used in the interpolation. -/
  upper : Int
  /-- The 1-D linear interpolation scale. -/
  lerp : ℚ

/-- The conversion `static_cast<index_t>(x)` of a real value: truncation
towards zero. -/
def truncToIndex (x : ℚ) : Int :=
  if 0 ≤ x then ⌊x⌋ else ⌈x⌉

/-- `CalculateResizeScale(in_size, out_size, align_corners)`. -/
def CalculateResizeScale (in_size out_size : Int) (align_corners : Bool) : ℚ :=
  if align_corners && decide (out_size > 1) then
    ((in_size - 1 : Int) : ℚ) / ((out_size - 1 : Int) : ℚ)
  else
    (in_size : ℚ) / (out_size : ℚ)

/-- Body of the loop of `ComputeInterpolationWeights` at index `i`. -/
def interpolationStep (in_size : Int) (scale : ℚ) (i : Int)
    (interpolation : Int → CachedInterpolation) : Int → CachedInterpolation :=
  let inp : ℚ := (i : ℚ) * scale
  let lower : Int := truncToIndex inp
  let upper : Int := min (lower + 1) (in_size - 1)
  store interpolation i { lower := lower, upper := upper, lerp := inp - (lower : ℚ) }

/-- `ComputeInterpolationWeights(out_size, in_size, scale, interpolation)`; the
result is the array `interpolation` after the call. -/
def ComputeInterpolationWeights (out_size in_size : Int) (scale : ℚ)
    (interpolation : Int → CachedInterpolation) : Int → CachedInterpolation :=
  let it0 := store interpolation out_size
    { interpolation out_size with lower := 0, upper := 0 }
  loopDown out_size.toNat (interpolationStep in_size scale) it0

/-- `ComputeLerp(top_left, top_right, bottom_left, bottom_right, x_lerp, y_lerp)`. -/
def ComputeLerp (top_left top_right bottom_left bottom_right x_lerp y_lerp : ℚ) : ℚ :=
  let top := top_left + (top_right - top_left) * x_lerp
  let bottom := bottom_left + (bottom_right - bottom_left) * x_lerp
  top + (bottom - top) * y_lerp

/-- Body of the channel loop of `ResizeImage`: one output element. -/
def resizeC (images : Int → ℚ)
    (top_left_ptr top_right_ptr bottom_left_ptr bottom_right_ptr output_ptr : Int)
    (xs_lerp ys_lerp : ℚ) (c : Int) (output : Int → ℚ) : Int → ℚ :=
  let top_left := images (top_left_ptr + c)
  let top_right := images (top_right_ptr + c)
  let bottom_left := images (bottom_left_ptr + c)
  let bottom_right := images (bottom_right_ptr + c)
  store output (output_ptr + c)
    (ComputeLerp top_left top_right bottom_left bottom_right xs_lerp ys_lerp)

/-- Body of the `x` loop of `ResizeImage`. -/
def resizeX (images : Int → ℚ) (channels : Int) (xs : Int → CachedInterpolation)
    (y_lower_input_ptr y_upper_input_ptr y_output_ptr : Int) (ys_lerp : ℚ)
    (x : Int) (output : Int → ℚ) : Int → ℚ :=
  let xs_lerp := (xs x).lerp
  let top_left_ptr := y_lower_input_ptr + (xs x).lower * channels
  let top_right_ptr := y_lower_input_ptr + (xs x).upper * channels
  let bottom_left_ptr := y_upper_input_ptr + (xs x).lower * channels
  let bottom_right_ptr := y_upper_input_ptr + (xs x).upper * channels
  let output_ptr := y_output_ptr + x * channels
  loopUp channels.toNat
    (resizeC images top_left_ptr top_right_ptr bottom_left_ptr bottom_right_ptr
      output_ptr xs_lerp ys_lerp) output

/-- Body of the `y` loop of `ResizeImage`, inside batch `b`. -/
def resizeY (images : Int → ℚ) (in_width out_width channels : Int)
    (in_batch_num_values out_batch_num_values : Int)
    (xs ys : Int → CachedInterpolation) (b : Int) (y : Int)
    (output : Int → ℚ) : Int → ℚ :=
  let batch_input_ptr := in_batch_num_values * b
  let batch_output_ptr := out_batch_num_values * b
  let y_lower_input_ptr := batch_input_ptr + (ys y).lower * in_width * channels
  let y_upper_input_ptr := batch_input_ptr + (ys y).upper * in_width * channels
  let y_output_ptr := batch_output_ptr + y * out_width * channels
  let ys_lerp := (ys y).lerp
  loopUp out_width.toNat
    (resizeX images channels xs y_lower_input_ptr y_upper_input_ptr y_output_ptr ys_lerp)
    output

/-- `ResizeImage(images, batch_size, in_height, in_width, out_height, out_width,
channels, xs_vec, ys, output)`; the result is the buffer `output` after the call. -/
def ResizeImage (images : Int → ℚ)
    (batch_size in_height in_width out_height out_width channels : Int)
    (xs_vec ys : Int → CachedInterpolation) (output : Int → ℚ) : Int → ℚ :=
  let in_batch_num_values := channels * in_height * in_width
  let out_batch_num_values := channels * out_height * out_width
  let xs := xs_vec
  loopUp batch_size.toNat
    (fun b out =>
      loopUp out_height.toNat
        (resizeY images in_width out_width channels in_batch_num_values
          out_batch_num_values xs ys b) out)
    output

/-- The members of `ResizeBilinearFunctorBase`. -/
structure ResizeBilinearFunctorBase where
  align_corners_ : Bool
  out_height_ : Int
  out_width_ : Int

/-- The constructor `ResizeBilinearFunctorBase(size, align_corners)`. -/
def ResizeBilinearFunctorBase.new (size : List Int) (align_corners : Bool) :
    Except Failure ResizeBilinearFunctorBase :=
  match size with
  | [h, w] => Except.ok { align_corners_ := align_corners, out_height_ := h, out_width_ := w }
  | _ => Except.error (Failure.check "")

/-- `std::copy(src, src + n, dst)`: the elements at offsets `0 .. n - 1` are
assigned in increasing order. -/
def stdCopy {β : Type} (src : Int → β) (n : Int) (dst : Int → β) : Int → β :=
  loopUp n.toNat (fun i d => store d i (src i)) dst

/-- `std::vector<CachedInterpolation> v(n)`: value-initialised entries. -/
def zeroInterpolation : Int → CachedInterpolation :=
  fun _ => { lower := 0, upper := 0, lerp := 0 }

/-- The CPU `ResizeBilinearFunctor::operator()(input, output, future)`; the
result is `output` after the call. -/
def ResizeBilinearFunctor (self : ResizeBilinearFunctorBase) (input output : Tensor ℚ) :
    Except Failure (Tensor ℚ) := do
  let batch ← input.dim 0
  let in_height ← input.dim 1
  let in_width ← input.dim 2
  let channels ← input.dim 3
  let out_height := self.out_height_
  let out_width := self.out_width_
  if out_height > 0 ∧ out_width > 0 then
    let out_shape := [batch, out_height, out_width, channels]
    let output := output.Resize out_shape
    if out_height = in_height ∧ out_width = in_width then
      return { output with
        data := stdCopy input.data (channels * in_height * in_width) output.data }
    else
      let height_scale := CalculateResizeScale in_height out_height self.align_corners_
      let width_scale := CalculateResizeScale in_width out_width self.align_corners_
      let ys := ComputeInterpolationWeights out_height in_height height_scale
        zeroInterpolation
      let xs := ComputeInterpolationWeights out_width in_width width_scale
        zeroInterpolation
      return { output with
        data := ResizeImage input.data batch in_height in_width out_height out_width
          channels xs ys output.data }
  else
    throw (Failure.check "")

/-! ### Access logs of the resize loops -/

/-- The interpolation cache together with the indices of the entries assigned
so far, in program order. -/
structure InterpolationTrace where
  cache : Int → CachedInterpolation
  writes : List Int

/-- Body of the loop of `ComputeInterpolationWeights` at index `i`, logging the
three assignments to `interpolation[i]`. -/
def interpolationStepTraced (in_size : Int) (scale : ℚ) (i : Int)
    (t : InterpolationTrace) : InterpolationTrace :=
  { cache := interpolationStep in_size scale i t.cache
    writes := t.writes ++ [i, i, i] }

/-- `ComputeInterpolationWeights` with the log of the entries it assigns: the
two assignments to `interpolation[out_size]`, then the loop. -/
def ComputeInterpolationWeightsTraced (out_size in_size : Int) (scale : ℚ)
    (interpolation : Int → CachedInterpolation) : InterpolationTrace :=
  loopDown out_size.toNat (interpolationStepTraced in_size scale)
    { cache := store interpolation out_size
        { interpolation out_size with lower := 0, upper := 0 }
      writes := [out_size, out_size] }

/-- The output buffer of `ResizeImage` together with the offsets read from
`images` and the offsets written to `output` so far, in program order. -/
structure ResizeTrace where
  output : Int → ℚ
  reads : List Int
  writes : List Int

/-- Body of the channel loop of `ResizeImage`, logging its four reads and its
write. -/
def resizeCTraced (images : Int → ℚ)
    (top_left_ptr top_right_ptr bottom_left_ptr bottom_right_ptr output_ptr : Int)
    (xs_lerp ys_lerp : ℚ) (c : Int) (t : ResizeTrace) : ResizeTrace :=
  { output := resizeC images top_left_ptr top_right_ptr bottom_left_ptr bottom_right_ptr
      output_ptr xs_lerp ys_lerp c t.output
    reads := t.reads ++
      [top_left_ptr + c, top_right_ptr + c, bottom_left_ptr + c, bottom_right_ptr + c]
    writes := t.writes ++ [output_ptr + c] }

/-- Body of the `x` loop of `ResizeImage`, with the log. -/
def resizeXTraced (images : Int → ℚ) (channels : Int) (xs : Int → CachedInterpolation)
    (y_lower_input_ptr y_upper_input_ptr y_output_ptr : Int) (ys_lerp : ℚ)
    (x : Int) (t : ResizeTrace) : ResizeTrace :=
  let xs_lerp := (xs x).lerp
  let top_left_ptr := y_lower_input_ptr + (xs x).lower * channels
  let top_right_ptr := y_lower_input_ptr + (xs x).upper * channels
  let bottom_left_ptr := y_upper_input_ptr + (xs x).lower * channels
  let bottom_right_ptr := y_upper_input_ptr + (xs x).upper * channels
  let output_ptr := y_output_ptr + x * channels
  loopUp channels.toNat
    (resizeCTraced images top_left_ptr top_right_ptr bottom_left_ptr bottom_right_ptr
      output_ptr xs_lerp ys_lerp) t

/-- Body of the `y` loop of `ResizeImage`, inside batch `b`, with the log. -/
def resizeYTraced (images : Int → ℚ) (in_width out_width channels : Int)
    (in_batch_num_values out_batch_num_values : Int)
    (xs ys : Int → CachedInterpolation) (b : Int) (y : Int)
    (t : ResizeTrace) : ResizeTrace :=
  let batch_input_ptr := in_batch_num_values * b
  let batch_output_ptr := out_batch_num_values * b
  let y_lower_input_ptr := batch_input_ptr + (ys y).lower * in_width * channels
  let y_upper_input_ptr := batch_input_ptr + (ys y).upper * in_width * channels
  let y_output_ptr := batch_output_ptr + y * out_width * channels
  let ys_lerp := (ys y).lerp
  loopUp out_width.toNat
    (resizeXTraced images channels xs y_lower_input_ptr y_upper_input_ptr y_output_ptr
      ys_lerp) t

/-- `ResizeImage` with the log of the offsets it reads and writes. -/
def ResizeImageTraced (images : Int → ℚ)
    (batch_size in_height in_width out_height out_width channels : Int)
    (xs_vec ys : Int → CachedInterpolation) (t : ResizeTrace) : ResizeTrace :=
  let in_batch_num_values := channels * in_height * in_width
  let out_batch_num_values := channels * out_height * out_width
  let xs := xs_vec
  loopUp batch_size.toNat
    (fun b t =>
      loopUp out_height.toNat
        (resizeYTraced images in_width out_width channels in_batch_num_values
          out_batch_num_values xs ys b) t)
    t

/-! ## `mace/ops/opencl/image/eltwise.h` -/

section Eltwise

variable {α : Type}

/-- The `MACE_CHECK(cond) << msg` statement. -/
def mace_check (cond : Bool) (msg : String) : Except Failure Unit :=
  if cond then Except.ok () else Except.error (Failure.check msg)

/-- The comparison `x == y` of two `dim` reads. -/
def eqE (x y : Except Failure Int) : Except Failure Bool := do
  let a ← x
  let b ← y
  pure (decide (a = b))

/-- The short-circuit `x && y`: `y` is evaluated only when `x` is true. -/
def andE (x y : Except Failure Bool) : Except Failure Bool := do
  if (← x) then y else pure false

/-- The short-circuit `x || y`: `y` is evaluated only when `x` is false. -/
def orE (x y : Except Failure Bool) : Except Failure Bool := do
  if (← x) then pure true else y

/-- Message of the rank check. -/
def msgSameShape : String := "Inputs of Eltwise op must be same shape"

/-- Message of the two broadcast checks. -/
def msgBroadcast : String :=
  "Element-Wise op support broadcast on only-channel or non-channel dimension"

/-- The two shape checks made when the element counts differ, on the operands
after the exchange (`input0` is the larger one). -/
def checkBroadcast (input0 input1 : Tensor α) : Except Failure Unit :=
  if input1.dim_size = 1 then do
    let c ← eqE (input0.dim 3) (input1.dim 0)
    mace_check c msgBroadcast
  else do
    let c ←
      orE
        (andE
          (andE
            (andE
              (orE (eqE (input0.dim 0) (input1.dim 0)) (eqE (input1.dim 0) (pure 1)))
              (eqE (input0.dim 3) (input1.dim 3)))
            (eqE (input1.dim 1) (pure 1)))
          (eqE (input1.dim 2) (pure 1)))
        (andE
          (andE
            (andE (eqE (input0.dim 0) (input1.dim 0))
              (eqE (input0.dim 1) (input1.dim 1)))
            (eqE (input0.dim 2) (input1.dim 2)))
          (eqE (input1.dim 3) (pure 1)))
    mace_check c msgBroadcast

/-- The operands and the flag after the validation block of `Compute`. -/
structure CheckedInputs (α : Type) where
  /-- The operand called `input0` from here on (the base). -/
  input0 : Tensor α
  /-- The operand called `input1` from here on, `none` for `nullptr`. -/
  input1 : Option (Tensor α)
  /-- The local `swapped`. -/
  swapped : Bool

/-- The validation block of `EltwiseKernel::Compute`: `bool swapped = false;`
and the `if (input1 != nullptr)` statement with its checks and its exchange. -/
def checkInputs (input0 : Tensor α) (input1 : Option (Tensor α)) :
    Except Failure (CheckedInputs α) :=
  match input1 with
  | none => pure { input0 := input0, input1 := none, swapped := false }
  | some input1 => do
    mace_check
      (decide (input0.dim_size = input1.dim_size) || decide (input0.dim_size = 1) ||
        decide (input1.dim_size = 1))
      msgSameShape
    if input0.size ≠ input1.size then
      if input0.size < input1.size then do
        checkBroadcast input1 input0
        pure { input0 := input1, input1 := some input0, swapped := true }
      else do
        checkBroadcast input0 input1
        pure { input0 := input0, input1 := some input1, swapped := false }
    else
      pure { input0 := input0, input1 := some input1, swapped := false }

/-- The statement `if (scalar_input_index_ == 0) swapped = !swapped;`. -/
def adjustSwapped (scalar_input_index_ : Int) (swapped : Bool) : Bool :=
  if scalar_input_index_ = 0 then !swapped else swapped

/-- The four `output_shape[i] = input0->dim(i)` assignments. -/
def outputShape (input0 : Tensor α) : Except Failure (List Int) := do
  let d0 ← input0.dim 0
  let d1 ← input0.dim 1
  let d2 ← input0.dim 2
  let d3 ← input0.dim 3
  pure [d0, d1, d2, d3]

/-- Modelled from the spec: `RoundUpDiv4` of `mace/ops/opencl/helper.h` (not
among the sources), the number of channel blocks `ceil(channels / 4)`. -/
def RoundUpDiv4 (channels : Int) : Int := (channels + 3) / 4

/-- The conversion `static_cast<uint32_t>(x)`. -/
def toUint32 (x : Int) : Int := x % 4294967296

/-- The conversion `static_cast<int32_t>(x)`. -/
def toInt32 (x : Int) : Int := (x + 2147483648) % 4294967296 - 2147483648

/-- A value bound with `kernel_.setArg`. -/
inductive KernelArg where
  /-- An `opencl_image()` handle, identified by the shape of its tensor. -/
  | image (shape : List Int)
  /-- A `float`; `none` stands for an element read past the end of `coeff_`. -/
  | scalar (v : Option ℚ)
  /-- An `int32_t`. -/
  | int32 (v : Int)
  /-- An argument bound by one of the helper macros. -/
  | helper (v : Int)
  deriving DecidableEq

/-- A `cl::Kernel` handle: the build-option set it was compiled with and the
arguments bound to it. -/
structure Kernel where
  built_options : List String
  args : List KernelArg
  deriving DecidableEq

/-- The statement `kernel_.setArg(idx, v)`. -/
def Kernel.setArg (k : Kernel) (idx : Nat) (v : KernelArg) : Kernel :=
  { k with args := if idx < k.args.length then k.args.set idx v else k.args ++ [v] }

/-- `built_options.emplace(x)` on a `std::set<std::string>`. -/
def emplace (built_options : List String) (x : String) : List String :=
  if x ∈ built_options then built_options else built_options ++ [x]

/-- The collaborators of `Compute` that are not among the sources: the OpenCL
runtime, the helpers and macros of `mace/ops/opencl/helper.h`, and the
outcome of the image allocation. -/
structure OpenCLRuntime where
  /-- Options emplaced by `MACE_OUT_OF_RANGE_CONFIG`. -/
  outOfRangeConfig : List String
  /-- Options emplaced by `MACE_NON_UNIFORM_WG_CONFIG`. -/
  nonUniformWgConfig : List String
  /-- Arguments bound by `MACE_OUT_OF_RANGE_SET_ARGS`. -/
  outOfRangeArgs : List KernelArg
  /-- Arguments bound by `MACE_SET_3D_GWS_ARGS`. -/
  gwsArgs : List Int → List KernelArg
  /-- `MACE_OBFUSCATE_SYMBOL("eltwise")`. -/
  kernel_name : String
  /-- `DtToUpCompatibleCLDt(dt)`. -/
  clDt : String
  /-- `DtToUpCompatibleCLCMDDt(dt)`. -/
  clCmdDt : String
  /-- `CalImage2DShape(shape, BufferType::IN_OUT_CHANNEL, &image_shape)`. -/
  CalImage2DShape : List Int → List Int
  /-- Status of the allocation made by `ResizeImage(shape, image_shape)`. -/
  allocImage : List Int → List Int → Except Failure Unit
  /-- Status of `BuildKernel("eltwise", kernel_name, built_options, &kernel_)`. -/
  BuildKernel : String → List String → Except Failure Unit
  /-- `GetKernelMaxWorkGroupSize(kernel_)`. -/
  GetKernelMaxWorkGroupSize : Kernel → Int
  /-- `Default3DLocalWS(runtime, gws, kwg_size_)`. -/
  Default3DLocalWS : List Int → Int → List Int
  /-- `Concat("eltwise_opencl_kernel", d0, d1, d2, d3)`. -/
  Concat : String → List Int → String
  /-- Status of `TuningOrRun3DKernel(runtime, kernel_, tuning_key, gws, lws, future)`. -/
  TuningOrRun3DKernel : Kernel → String → List Int → List Int → Except Failure Unit

/-- Modelled from the spec: `Tensor::ResizeImage(shape, image_shape)` of
`mace/core/tensor.h` (not among the sources).  It sets the logical shape when
the allocation succeeds and hands back the allocation status otherwise. -/
def Tensor.ResizeImage (t : Tensor α) (alloc : Except Failure Unit) (shape : List Int) :
    Except Failure (Tensor α) := do
  alloc
  pure { t with shape := shape }

/-- The members of `EltwiseKernel`, with two counters that record how often
the instance called `BuildKernel` and how often it walked the argument list. -/
structure EltwiseKernel where
  type_ : Int
  coeff_ : List ℚ
  scalar_input_ : ℚ
  scalar_input_index_ : Int
  kernel_ : Option Kernel
  kwg_size_ : Int
  input_shape_ : List Int
  /-- Counter: calls of `BuildKernel`. -/
  build_calls : Nat
  /-- Counter: argument-binding passes. -/
  bind_passes : Nat

/-- The constructor `EltwiseKernel(type, coeff, scalar_input, scalar_input_index)`:
no kernel is held and the cached shape is empty. -/
def EltwiseKernel.new (type : Int) (coeff : List ℚ) (scalar_input : ℚ)
    (scalar_input_index : Int) : EltwiseKernel :=
  { type_ := type, coeff_ := coeff, scalar_input_ := scalar_input,
    scalar_input_index_ := scalar_input_index, kernel_ := none, kwg_size_ := 0,
    input_shape_ := [], build_calls := 0, bind_passes := 0 }

/-- The `INPUT_TYPE` option chosen when both inputs are present and their
element counts differ. -/
def broadcastInputType (input0 input1 : Tensor α) : Except Failure String := do
  let spatial ←
    andE
      (andE
        (andE (eqE (input0.dim 0) (input1.dim 0)) (eqE (input0.dim 1) (input1.dim 1)))
        (eqE (input0.dim 2) (input1.dim 2)))
      (eqE (input1.dim 3) (pure 1))
  if spatial then
    pure "-DINPUT_TYPE=4"
  else
    let one ← orE (eqE (input1.dim 0) (pure 1)) (pure (decide (input1.dim_size = 1)))
    if one then pure "-DINPUT_TYPE=3" else pure "-DINPUT_TYPE=2"

/-- The set `built_options` assembled inside `if (kernel_.get() == nullptr)`. -/
def builtOptions (rt : OpenCLRuntime) (type_ : Int) (coeff_ : List ℚ)
    (input0 : Tensor α) (input1 : Option (Tensor α)) (swapped : Bool) :
    Except Failure (List String) := do
  let o := ([] : List String)
  let o := rt.outOfRangeConfig.foldl emplace o
  let o := rt.nonUniformWgConfig.foldl emplace o
  let o := emplace o ("-Deltwise=" ++ rt.kernel_name)
  let o := emplace o ("-DDATA_TYPE=" ++ rt.clDt)
  let o := emplace o ("-DCMD_DATA_TYPE=" ++ rt.clCmdDt)
  let o := emplace o ("-DELTWISE_TYPE=" ++ toString type_)
  let o ←
    match input1 with
    | none => pure (emplace o "-DINPUT_TYPE=1")
    | some input1 =>
      if input0.size ≠ input1.size then do
        let t ← broadcastInputType input0 input1
        let o := emplace o t
        pure (if swapped then emplace o "-DSWAPPED" else o)
      else
        pure o
  pure (if !coeff_.isEmpty then emplace o "-DCOEFF_SUM" else o)

/-- The argument-binding pass, the body of
`if (!IsVecEqual(input_shape_, input0->shape()))` up to the last `setArg`. -/
def bindArgs (rt : OpenCLRuntime) (self : EltwiseKernel) (kernel : Kernel)
    (gws : List Int) (input0 : Tensor α) (input1 : Option (Tensor α))
    (height width channels : Int) (output : Tensor α) : Kernel :=
  let vals : List KernelArg :=
    rt.outOfRangeArgs ++ rt.gwsArgs gws ++
    [KernelArg.image input0.shape] ++
    [match input1 with
      | none => KernelArg.scalar (some self.scalar_input_)
      | some input1 => KernelArg.image input1.shape] ++
    [KernelArg.int32 (toInt32 height), KernelArg.int32 (toInt32 width),
      KernelArg.int32 (toInt32 channels)] ++
    (if !self.coeff_.isEmpty then
      [KernelArg.scalar (self.coeff_.get? 0), KernelArg.scalar (self.coeff_.get? 1)]
     else []) ++
    [KernelArg.image output.shape]
  (vals.foldl (fun (st : Kernel × Nat) v => (st.1.setArg st.2 v, st.2 + 1)) (kernel, 0)).1

/-- What `Compute` handed to `TuningOrRun3DKernel`. -/
structure Launch where
  kernel : Kernel
  tuning_key : String
  gws : List Int
  lws : List Int

/-- The outcome of a `Compute` call that returned `MACE_SUCCESS`. -/
structure ComputeResult (α : Type) where
  /-- The instance after the call. -/
  self : EltwiseKernel
  /-- The output tensor after the call. -/
  output : Tensor α
  /-- The launch that was issued. -/
  launch : Launch
  /-- The operand used as `input0` after the exchange. -/
  input0 : Tensor α
  /-- The operand used as `input1` after the exchange. -/
  input1 : Option (Tensor α)
  /-- The final value of the local `swapped`. -/
  swapped : Bool

/-- The block `if (kernel_.get() == nullptr)`: the instance after it, together
with the kernel it holds. -/
def buildStep (rt : OpenCLRuntime) (self : EltwiseKernel)
    (input0 : Tensor α) (input1 : Option (Tensor α)) (swapped : Bool) :
    Except Failure (EltwiseKernel × Kernel) :=
  match self.kernel_ with
  | some kernel => pure (self, kernel)
  | none => do
    let built_options ← builtOptions rt self.type_ self.coeff_ input0 input1 swapped
    rt.BuildKernel rt.kernel_name built_options
    let kernel : Kernel := { built_options := built_options, args := [] }
    pure ({ self with
            kernel_ := some kernel
            kwg_size_ := toUint32 (rt.GetKernelMaxWorkGroupSize kernel)
            build_calls := self.build_calls + 1 }, kernel)

/-- The block `if (!IsVecEqual(input_shape_, input0->shape()))` on an instance
holding `kernel`: the instance after it, together with the kernel it holds. -/
def bindStep (rt : OpenCLRuntime) (self : EltwiseKernel) (kernel : Kernel)
    (gws : List Int) (input0 : Tensor α) (input1 : Option (Tensor α))
    (height width channels : Int) (output : Tensor α) : EltwiseKernel × Kernel :=
  if self.input_shape_ ≠ input0.shape then
    let kernel := bindArgs rt self kernel gws input0 input1 height width channels output
    ({ self with
       kernel_ := some kernel
       input_shape_ := input0.shape
       bind_passes := self.bind_passes + 1 }, kernel)
  else
    (self, kernel)

/-- `EltwiseKernel<T>::Compute(context, input0, input1, output)` on the instance
`self`, with `rt` standing for the runtime reached through `context`.  The
result describes a call that returned `MACE_SUCCESS`; the debug-only
out-of-range macros contribute the options and arguments recorded in `rt`. -/
def EltwiseKernel.Compute (rt : OpenCLRuntime) (self : EltwiseKernel)
    (input0 : Tensor α) (input1 : Option (Tensor α)) (output : Tensor α) :
    Except Failure (ComputeResult α) := do
  let ci ← checkInputs input0 input1
  let input0 := ci.input0
  let input1 := ci.input1
  let swapped := adjustSwapped self.scalar_input_index_ ci.swapped
  let output_shape ← outputShape input0
  let output_image_shape := rt.CalImage2DShape output_shape
  let output ← output.ResizeImage (rt.allocImage output_shape output_image_shape)
    output_shape
  let batch ← output.dim 0
  let height ← output.dim 1
  let width ← output.dim 2
  let channels ← output.dim 3
  let channel_blocks := RoundUpDiv4 channels
  let batch_height_pixels := batch * height
  let gws := [toUint32 channel_blocks, toUint32 width, toUint32 batch_height_pixels]
  let built ← buildStep rt self input0 input1 swapped
  let bound := bindStep rt built.1 built.2 gws input0 input1 height width channels output
  let lws := rt.Default3DLocalWS gws bound.1.kwg_size_
  let tuning_key := rt.Concat "eltwise_opencl_kernel"
    [← output.dim 0, ← output.dim 1, ← output.dim 2, ← output.dim 3]
  rt.TuningOrRun3DKernel bound.2 tuning_key gws lws
  pure { self := bound.1, output := output,
         launch := { kernel := bound.2, tuning_key := tuning_key, gws := gws, lws := lws },
         input0 := input0, input1 := input1, swapped := swapped }

end Eltwise

/-! ## Definitions used to state the properties -/

section Statements

variable {α : Type}

/-- The three broadcast patterns of the specification for a rank-4 base
`(n, h, w, c)`: a rank-1 operand `(c)`; a rank-4 operand with singleton height
and width, the base's channel count and the base's batch or batch `1`; a
rank-4 operand with singleton channel and the base's batch, height and width. -/
def allowedBroadcast : List Int → List Int → Bool
  | [_, _, _, c], [d] => decide (d = c)
  | [n, h, w, c], [n2, h2, w2, c2] =>
    (decide (h2 = 1) && decide (w2 = 1) && decide (c2 = c) &&
      (decide (n2 = n) || decide (n2 = 1))) ||
    (decide (c2 = 1) && decide (n2 = n) && decide (h2 = h) && decide (w2 = w))
  | _, _ => false

/-- A failure is a shape-mismatch error when it is one of the two shape checks
of `Compute`. -/
def Failure.isShapeMismatch (e : Failure) : Bool :=
  decide (e = Failure.check msgSameShape) || decide (e = Failure.check msgBroadcast)

/-- The operand the specification calls the base: the one with the larger
element count, `input0` when the counts are equal or `input1` is absent. -/
def baseOperand (input0 : Tensor α) (input1 : Option (Tensor α)) : Tensor α :=
  match input1 with
  | none => input0
  | some input1 => if input0.size < input1.size then input1 else input0

/-- A tensor of the given shape whose elements carry no information. -/
def shapeOnly (shape : List Int) : Tensor Unit := ⟨shape, fun _ => ()⟩

/-- A runtime in which every collaborator succeeds and the helper macros add
neither options nor arguments. -/
def plainRuntime : OpenCLRuntime :=
  { outOfRangeConfig := [], nonUniformWgConfig := [], outOfRangeArgs := [],
    gwsArgs := fun _ => [], kernel_name := "eltwise", clDt := "float", clCmdDt := "float",
    CalImage2DShape := fun s => s, allocImage := fun _ _ => Except.ok (),
    BuildKernel := fun _ _ => Except.ok (), GetKernelMaxWorkGroupSize := fun _ => 256,
    Default3DLocalWS := fun g _ => g, Concat := fun s _ => s,
    TuningOrRun3DKernel := fun _ _ _ _ => Except.ok () }

/-- The interpolation cache the functor computes for one axis. -/
def axisWeights (in_size out_size : Int) (align_corners : Bool) : Int → CachedInterpolation :=
  ComputeInterpolationWeights out_size in_size
    (CalculateResizeScale in_size out_size align_corners) zeroInterpolation

/-- The value `ResizeImage` stores for channel `c` of the output pixel whose
row pointers are `yl`, `yu` and whose column weights are `wx`. -/
def pixelValue (images : Int → ℚ) (channels : Int) (wx : CachedInterpolation)
    (yl yu : Int) (ys_lerp : ℚ) (c : Int) : ℚ :=
  ComputeLerp (images (yl + wx.lower * channels + c)) (images (yl + wx.upper * channels + c))
    (images (yu + wx.lower * channels + c)) (images (yu + wx.upper * channels + c))
    wx.lerp ys_lerp

/-- The blend of the specification: `top = tl + (tr - tl) * x_lerp`,
`bottom = bl + (br - bl) * x_lerp`, `result = top + (bottom - top) * y_lerp`. -/
def bilinearBlend (tl tr bl br x_lerp y_lerp : ℚ) : ℚ :=
  (tl + (tr - tl) * x_lerp) +
    ((bl + (br - bl) * x_lerp) - (tl + (tr - tl) * x_lerp)) * y_lerp

end Statements

/-! ## Theorems: loops and stores -/

theorem store_same {β : Type} (mem : Int → β) (off : Int) (v : β) :
    store mem off v off = v := by
  simp [store]

theorem store_other {β : Type} (mem : Int → β) (off : Int) (v : β) (j : Int)
    (h : j ≠ off) : store mem off v j = mem j := by
  simp [store, h]

theorem store_store {β : Type} (mem : Int → β) (off : Int) (v v2 : β) :
    store (store mem off v) off v2 = store mem off v2 := by
  funext j
  by_cases h : j = off <;> simp [store, h]

/-! ## Theorems: MatMul -/

section MatMulTheorems

variable {α : Type} [Semiring α]

theorem matmulK_loop (a b : Int → α) (width c_ptr : Int) (n : Nat)
    (s : MatMulInner α) :
    loopUp n (matmulK a b width c_ptr) s =
      { a_ptr := s.a_ptr + n
        b_ptr := s.b_ptr + n * width
        c := store s.c c_ptr (s.c c_ptr + dotAt a b width n s.a_ptr s.b_ptr) } := by
  induction n with
  | zero =>
    cases s with
    | mk ap bp c =>
      simp only [loopUp, dotAt, Finset.range_zero, Finset.sum_empty, add_zero,
        Nat.cast_zero, zero_mul, MatMulInner.mk.injEq, true_and]
      funext j
      by_cases h : j = c_ptr <;> simp [store, h]
  | succ n ih =>
    simp only [loopUp, ih, matmulK, store_store, store_same, dotAt,
      Finset.sum_range_succ, MatMulInner.mk.injEq]
    refine ⟨by push_cast; ring, by push_cast; ring, ?_⟩
    rw [add_assoc]

theorem matmulW_eq (a b : Int → α) (width K h w : Int) (s : MatMulState α) :
    matmulW a b width K h w s =
      { s with
        c := store s.c s.c_ptr
          (dotAt a b width K.toNat (s.a_ptr_base + h * K) (s.b_ptr_base + w))
        c_ptr := s.c_ptr + 1 } := by
  simp [matmulW, matmulK_loop, store_store, store_same]

theorem matmulW_loop (a b : Int → α) (width K h : Int) (n : Nat)
    (s : MatMulState α) :
    (loopUp n (matmulW a b width K h) s).a_ptr_base = s.a_ptr_base ∧
    (loopUp n (matmulW a b width K h) s).b_ptr_base = s.b_ptr_base ∧
    (loopUp n (matmulW a b width K h) s).c_ptr = s.c_ptr + n ∧
    (∀ p : Int, p < s.c_ptr ∨ s.c_ptr + n ≤ p →
      (loopUp n (matmulW a b width K h) s).c p = s.c p) ∧
    (∀ w : Nat, w < n →
      (loopUp n (matmulW a b width K h) s).c (s.c_ptr + w) =
        dotAt a b width K.toNat (s.a_ptr_base + h * K) (s.b_ptr_base + w)) := by
  induction n with
  | zero => simp [loopUp]
  | succ n ih =>
    obtain ⟨ha, hb, hc, hframe, hval⟩ := ih
    simp only [loopUp, matmulW_eq, ha, hb, hc]
    refine ⟨trivial, trivial, by push_cast; ring, ?_, ?_⟩
    · intro p hp
      have hne : p ≠ s.c_ptr + n := by
        rcases hp with hp | hp
        · omega
        · push_cast at hp; omega
      rw [store_other _ _ _ _ hne]
      apply hframe
      rcases hp with hp | hp
      · exact Or.inl hp
      · right; push_cast at hp; omega
    · intro w hw
      by_cases hwn : w = n
      · subst hwn
        rw [store_same]
      · have hne : s.c_ptr + (w : Int) ≠ s.c_ptr + n := by omega
        rw [store_other _ _ _ _ hne]
        exact hval w (by omega)

theorem matmulH_loop (a b : Int → α) (width K : Int) (m : Nat)
    (s : MatMulState α) :
    (loopUp m (matmulH a b width K) s).a_ptr_base = s.a_ptr_base ∧
    (loopUp m (matmulH a b width K) s).b_ptr_base = s.b_ptr_base ∧
    (loopUp m (matmulH a b width K) s).c_ptr = s.c_ptr + m * width.toNat ∧
    (∀ p : Int, p < s.c_ptr ∨ s.c_ptr + m * width.toNat ≤ p →
      (loopUp m (matmulH a b width K) s).c p = s.c p) ∧
    (∀ h w : Nat, h < m → w < width.toNat →
      (loopUp m (matmulH a b width K) s).c (s.c_ptr + h * width.toNat + w) =
        dotAt a b width K.toNat (s.a_ptr_base + h * K) (s.b_ptr_base + w)) := by
  induction m with
  | zero => simp [loopUp]
  | succ m ih =>
    obtain ⟨ha, hb, hc, hframe, hval⟩ := ih
    obtain ⟨wa, wb, wc, wframe, wval⟩ :=
      matmulW_loop a b width K (m : Int) width.toNat (loopUp m (matmulH a b width K) s)
    simp only [loopUp, matmulH]
    rw [ha] at wa
    rw [hb] at wb
    rw [hc] at wc wframe wval
    rw [ha, hb] at wval
    refine ⟨wa, wb, by rw [wc]; push_cast; ring, ?_, ?_⟩
    · intro p hp
      have hmul : (0 : Int) ≤ (m : Int) * (width.toNat : Int) := by positivity
      rw [wframe p, hframe p]
      · rcases hp with hp | hp
        · exact Or.inl hp
        · right; push_cast at hp; nlinarith
      · rcases hp with hp | hp
        · left; omega
        · right; push_cast at hp; linarith
    · intro h w hh hw
      by_cases hhm : h = m
      · subst hhm
        exact wval w hw
      · have hlt : h < m := by omega
        have hbound : (h : Int) * (width.toNat : Int) + (w : Int) <
            (m : Int) * (width.toNat : Int) := by
          have h1 : ((h : Int) + 1) * (width.toNat : Int) ≤ (m : Int) * (width.toNat : Int) := by
            apply mul_le_mul_of_nonneg_right
            · exact_mod_cast hlt
            · positivity
          have h2 : (w : Int) < (width.toNat : Int) := by exact_mod_cast hw
          linarith
        rw [wframe _ (Or.inl (by linarith))]
        exact hval h w hlt hw

theorem matmulN_loop (a b : Int → α) (height width K : Int) (n : Nat)
    (s : MatMulState α) :
    (loopUp n (matmulN a b height width K) s).a_ptr_base =
      s.a_ptr_base + n * (height * K) ∧
    (loopUp n (matmulN a b height width K) s).b_ptr_base =
      s.b_ptr_base + n * (K * width) ∧
    (loopUp n (matmulN a b height width K) s).c_ptr =
      s.c_ptr + n * (height.toNat * width.toNat) ∧
    (∀ p : Int, p < s.c_ptr ∨ s.c_ptr + n * (height.toNat * width.toNat) ≤ p →
      (loopUp n (matmulN a b height width K) s).c p = s.c p) ∧
    (∀ i h w : Nat, i < n → h < height.toNat → w < width.toNat →
      (loopUp n (matmulN a b height width K) s).c
          (s.c_ptr + i * (height.toNat * width.toNat) + h * width.toNat + w) =
        dotAt a b width K.toNat (s.a_ptr_base + i * (height * K) + h * K)
          (s.b_ptr_base + i * (K * width) + w)) := by
  induction n with
  | zero => simp [loopUp]
  | succ n ih =>
    obtain ⟨ha, hb, hc, hframe, hval⟩ := ih
    obtain ⟨wa, wb, wc, wframe, wval⟩ :=
      matmulH_loop a b width K height.toNat (loopUp n (matmulN a b height width K) s)
    simp only [loopUp, matmulN]
    rw [ha] at wa
    rw [hb] at wb
    rw [hc] at wc wframe wval
    rw [ha, hb] at wval
    have hHW : (0 : Int) ≤ (height.toNat : Int) * (width.toNat : Int) := by positivity
    refine ⟨by rw [wa]; push_cast; ring, by rw [wb]; push_cast; ring,
      by rw [wc]; push_cast; ring, ?_, ?_⟩
    · intro p hp
      have hmul : (0 : Int) ≤ (n : Int) * ((height.toNat : Int) * (width.toNat : Int)) := by
        positivity
      rw [wframe p, hframe p]
      · rcases hp with hp | hp
        · exact Or.inl hp
        · right; push_cast at hp; nlinarith
      · rcases hp with hp | hp
        · left; omega
        · right; push_cast at hp; linarith
    · intro i h w hi hh hw
      by_cases hin : i = n
      · subst hin
        exact wval h w hh hw
      · have hlt : i < n := by omega
        have hw2 : (w : Int) < (width.toNat : Int) := by exact_mod_cast hw
        have hrow : (h : Int) * (width.toNat : Int) + (w : Int) <
            (height.toNat : Int) * (width.toNat : Int) := by
          have h1 : ((h : Int) + 1) * (width.toNat : Int) ≤
              (height.toNat : Int) * (width.toNat : Int) := by
            apply mul_le_mul_of_nonneg_right
            · exact_mod_cast hh
            · positivity
          linarith
        have hblk : ((i : Int) + 1) * ((height.toNat : Int) * (width.toNat : Int)) ≤
            (n : Int) * ((height.toNat : Int) * (width.toNat : Int)) := by
          apply mul_le_mul_of_nonneg_right
          · exact_mod_cast hlt
          · exact hHW
        rw [wframe _ (Or.inl (by linarith))]
        exact hval i h w hlt hh hw

/-- C1: for `A` of shape `(N, H, K)` and `B` of shape `(N, K, W)` stored
row-major, the CPU `MatMulFunctor` returns, resizes `C` to `(N, H, W, 1)`, and
for all `n < N`, `h < H`, `w < W` leaves
`C[n, h, w] = sum over k = 0 .. K - 1 of A[n, h, k] * B[n, k, w]`
(so every such element is `0` when `K = 0`). -/
theorem MatMulFunctor_matrix_product (A B C : Tensor α) (N H K W : Int)
    (hA : A.shape = [N, H, K]) (hB : B.shape = [N, K, W]) :
    ∃ C2 : Tensor α, MatMulFunctor A B C = Except.ok C2 ∧
      C2.shape = [N, H, W, 1] ∧
      ∀ n h w : Nat, (n : Int) < N → (h : Int) < H → (w : Int) < W →
        C2.at3 H W n h w =
          Finset.sum (Finset.range K.toNat)
            (fun k => A.at3 H K n h k * B.at3 K W n k w) := by
  obtain ⟨-, -, -, -, hval⟩ :=
    matmulN_loop A.data B.data H W K N.toNat
      { a_ptr_base := 0, b_ptr_base := 0, c_ptr := 0, c := C.data }
  refine ⟨{ shape := [N, H, W, 1],
            data := (loopUp N.toNat (matmulN A.data B.data H W K)
              { a_ptr_base := 0, b_ptr_base := 0, c_ptr := 0, c := C.data }).c }, ?_, rfl, ?_⟩
  · simp [MatMulFunctor, Tensor.dim, Tensor.Resize, hA, hB, bind, Except.bind, pure,
      Except.pure]
  · intro n h w hn hh hw
    have hN : ((N.toNat : Nat) : Int) = N := Int.toNat_of_nonneg (by omega)
    have hH : ((H.toNat : Nat) : Int) = H := Int.toNat_of_nonneg (by omega)
    have hW : ((W.toNat : Nat) : Int) = W := Int.toNat_of_nonneg (by omega)
    have h1 := hval n h w (by omega) (by omega) (by omega)
    simp only [hH, hW, zero_add] at h1
    have hoff : ((n : Int) * H + h) * W + w = (n : Int) * (H * W) + h * W + w := by ring
    simp only [Tensor.at3, hoff, h1, dotAt]
    apply Finset.sum_congr rfl
    intro k _
    congr 2 <;> ring

/-- C1, at a concrete input: `A = [[1, 2]]`, `B = [[3], [4]]` gives `C = [[11]]`. -/
theorem MatMulFunctor_matrix_product_witness :
    ∃ C2 : Tensor Int,
      MatMulFunctor (⟨[1, 1, 2], fun i => i + 1⟩ : Tensor Int) ⟨[1, 2, 1], fun i => i + 3⟩
        ⟨[], fun _ => 0⟩ = Except.ok C2 ∧
      C2.shape = [1, 1, 1, 1] ∧ C2.at3 1 1 0 0 0 = 11 := by
  obtain ⟨C2, h1, h2, h3⟩ :=
    MatMulFunctor_matrix_product (⟨[1, 1, 2], fun i => i + 1⟩ : Tensor Int)
      ⟨[1, 2, 1], fun i => i + 3⟩ ⟨[], fun _ => 0⟩ 1 1 2 1 rfl rfl
  refine ⟨C2, h1, h2, ?_⟩
  have h4 := h3 0 0 0 (by decide) (by decide) (by decide)
  simpa [Tensor.at3, Finset.sum_range_succ] using h4

end MatMulTheorems

/-! ## Theorems: resize -/

theorem stdCopy_loop {β : Type} (src dst : Int → β) (n : Nat) (j : Int) :
    loopUp n (fun i d => store d i (src i)) dst j =
      if 0 ≤ j ∧ j < n then src j else dst j := by
  induction n with
  | zero =>
    simp only [loopUp, Nat.cast_zero]
    rw [if_neg]
    omega
  | succ n ih =>
    simp only [loopUp, store]
    by_cases h : j = n
    · subst h
      have : (0 : Int) ≤ (n : Int) ∧ (n : Int) < ((n + 1 : Nat) : Int) := by
        push_cast; omega
      simp [this]
    · rw [if_neg h, ih]
      have : (0 ≤ j ∧ j < (n : Int)) ↔ (0 ≤ j ∧ j < ((n + 1 : Nat) : Int)) := by
        push_cast; omega
      simp only [this]

/-- `std::copy(src, src + n, dst)` assigns exactly the offsets `0 .. n - 1`. -/
theorem stdCopy_apply {β : Type} (src dst : Int → β) (n j : Int) :
    stdCopy src n dst j = if 0 ≤ j ∧ j < n then src j else dst j := by
  unfold stdCopy
  rw [stdCopy_loop]
  have : (0 ≤ j ∧ j < ((n.toNat : Nat) : Int)) ↔ (0 ≤ j ∧ j < n) := by omega
  simp only [this]

/-- The fast path of `ResizeBilinearFunctor`: when the target size equals the
input size the call returns the resized output whose first
`channels * in_height * in_width` elements are those of the input and whose
other elements are untouched. -/
theorem ResizeBilinearFunctor_same_size (self : ResizeBilinearFunctorBase)
    (input output : Tensor ℚ) (batch in_h in_w channels : Int)
    (hshape : input.shape = [batch, in_h, in_w, channels])
    (hpos : in_h > 0 ∧ in_w > 0)
    (hh : self.out_height_ = in_h) (hw : self.out_width_ = in_w) :
    ResizeBilinearFunctor self input output =
      Except.ok { shape := [batch, in_h, in_w, channels],
                  data := fun j =>
                    if 0 ≤ j ∧ j < channels * in_h * in_w then input.data j
                    else output.data j } := by
  simp only [ResizeBilinearFunctor, Tensor.dim, hshape, hh, hw, Tensor.Resize, bind,
    Except.bind, pure, Except.pure, List.get?, if_pos hpos, and_self, if_true]
  congr 2
  funext j
  exact stdCopy_apply _ _ _ _

/-- C2, evaluated at an input with two batches: for the input of shape
`(2, 1, 1, 1)` holding `5, 6` and target size `(1, 1)`, the call returns an
output of shape `(2, 1, 1, 1)` with `output[0,0,0,0] = 5 = input[0,0,0,0]`, but
`output[1,0,0,0]` is still the value the output buffer held before the call
(here `0`), not `input[1,0,0,0] = 6`. -/
theorem ResizeBilinearFunctor_same_size_second_batch :
    ∃ out : Tensor ℚ,
      ResizeBilinearFunctor { align_corners_ := false, out_height_ := 1, out_width_ := 1 }
        ⟨[2, 1, 1, 1], fun i => (i : ℚ) + 5⟩ ⟨[], fun _ => 0⟩ = Except.ok out ∧
      out.shape = [2, 1, 1, 1] ∧
      out.at4 1 1 1 0 0 0 0 = 5 ∧
      out.at4 1 1 1 1 0 0 0 = 0 ∧
      (⟨[2, 1, 1, 1], fun i => (i : ℚ) + 5⟩ : Tensor ℚ).at4 1 1 1 1 0 0 0 = 6 := by
  refine ⟨_, ResizeBilinearFunctor_same_size _ _ _ 2 1 1 1 rfl (by decide) rfl rfl,
    rfl, ?_, ?_, ?_⟩
  · norm_num [Tensor.at4]
  · norm_num [Tensor.at4]
  · norm_num [Tensor.at4]

theorem interpolation_loop (in_size : Int) (scale : ℚ) (n : Nat)
    (it : Int → CachedInterpolation) (j : Int) :
    loopDown n (interpolationStep in_size scale) it j =
      if 0 ≤ j ∧ j < n then
        { lower := truncToIndex ((j : ℚ) * scale)
          upper := min (truncToIndex ((j : ℚ) * scale) + 1) (in_size - 1)
          lerp := (j : ℚ) * scale - (truncToIndex ((j : ℚ) * scale) : ℚ) }
      else it j := by
  induction n generalizing it with
  | zero =>
    simp only [loopDown, Nat.cast_zero]
    rw [if_neg]
    omega
  | succ n ih =>
    simp only [loopDown]
    rw [ih]
    by_cases h : 0 ≤ j ∧ j < (n : Int)
    · have h2 : 0 ≤ j ∧ j < ((n + 1 : Nat) : Int) := by push_cast; omega
      rw [if_pos h, if_pos h2]
    · rw [if_neg h]
      by_cases hj : j = n
      · have h2 : 0 ≤ j ∧ j < ((n + 1 : Nat) : Int) := by push_cast; omega
        rw [if_pos h2]
        subst hj
        simp [interpolationStep, store]
      · have h2 : ¬ (0 ≤ j ∧ j < ((n + 1 : Nat) : Int)) := by push_cast; omega
        rw [if_neg h2]
        simp [interpolationStep, store, hj]

/-- The entries written by `ComputeInterpolationWeights`: entry `i` with
`0 <= i < out_size` holds the weights computed from `i * scale`. -/
theorem ComputeInterpolationWeights_entry (out_size in_size : Int) (scale : ℚ)
    (interpolation : Int → CachedInterpolation) (i : Int)
    (hi : 0 ≤ i ∧ i < out_size) :
    ComputeInterpolationWeights out_size in_size scale interpolation i =
      { lower := truncToIndex ((i : ℚ) * scale)
        upper := min (truncToIndex ((i : ℚ) * scale) + 1) (in_size - 1)
        lerp := (i : ℚ) * scale - (truncToIndex ((i : ℚ) * scale) : ℚ) } := by
  unfold ComputeInterpolationWeights
  simp only []
  rw [interpolation_loop, if_pos]
  omega

theorem CalculateResizeScale_nonneg (in_size out_size : Int) (align_corners : Bool)
    (hin : 1 ≤ in_size) (hout : 1 ≤ out_size) :
    0 ≤ CalculateResizeScale in_size out_size align_corners := by
  unfold CalculateResizeScale
  split
  · apply div_nonneg
    · exact_mod_cast (by omega : (0 : Int) ≤ in_size - 1)
    · exact_mod_cast (by omega : (0 : Int) ≤ out_size - 1)
  · apply div_nonneg
    · exact_mod_cast (by omega : (0 : Int) ≤ in_size)
    · exact_mod_cast (by omega : (0 : Int) ≤ out_size)

theorem CalculateResizeScale_lt (in_size out_size : Int) (align_corners : Bool)
    (hin : 1 ≤ in_size) (i : Int) (hi : 0 ≤ i ∧ i < out_size) :
    (i : ℚ) * CalculateResizeScale in_size out_size align_corners < (in_size : ℚ) := by
  have hiq : (0 : ℚ) ≤ (i : ℚ) := by exact_mod_cast hi.1
  have hinq : (1 : ℚ) ≤ (in_size : ℚ) := by exact_mod_cast hin
  unfold CalculateResizeScale
  split
  · rename_i hc
    simp only [Bool.and_eq_true, decide_eq_true_eq] at hc
    have ho : (0 : ℚ) < ((out_size - 1 : Int) : ℚ) := by
      exact_mod_cast (by omega : (0 : Int) < out_size - 1)
    have hio : (i : ℚ) ≤ ((out_size - 1 : Int) : ℚ) := by
      exact_mod_cast (by omega : i ≤ out_size - 1)
    have hn : (0 : ℚ) ≤ ((in_size - 1 : Int) : ℚ) := by
      exact_mod_cast (by omega : (0 : Int) ≤ in_size - 1)
    have hcast : ((in_size - 1 : Int) : ℚ) = (in_size : ℚ) - 1 := by push_cast; ring
    rw [← mul_div_assoc, div_lt_iff₀ ho]
    have : (i : ℚ) * ((in_size - 1 : Int) : ℚ) ≤
        ((out_size - 1 : Int) : ℚ) * ((in_size - 1 : Int) : ℚ) :=
      mul_le_mul_of_nonneg_right hio hn
    nlinarith
  · have ho : (0 : ℚ) < (out_size : ℚ) := by
      exact_mod_cast (by omega : (0 : Int) < out_size)
    have hio : (i : ℚ) < (out_size : ℚ) := by exact_mod_cast hi.2
    rw [← mul_div_assoc, div_lt_iff₀ ho]
    nlinarith

/-- C3: for `in_size >= 1`, `out_size >= 1`, either value of `align_corners`
and the scale of `CalculateResizeScale` in exact arithmetic, every entry
`0 <= i < out_size` written by `ComputeInterpolationWeights` has
`0 <= lerp < 1` and `0 <= lower <= upper <= in_size - 1`. -/
theorem ComputeInterpolationWeights_in_range (in_size out_size : Int)
    (align_corners : Bool) (interpolation : Int → CachedInterpolation) (i : Int)
    (hin : 1 ≤ in_size) (hout : 1 ≤ out_size) (hi : 0 ≤ i ∧ i < out_size) :
    0 ≤ (ComputeInterpolationWeights out_size in_size
          (CalculateResizeScale in_size out_size align_corners) interpolation i).lerp ∧
    (ComputeInterpolationWeights out_size in_size
          (CalculateResizeScale in_size out_size align_corners) interpolation i).lerp < 1 ∧
    0 ≤ (ComputeInterpolationWeights out_size in_size
          (CalculateResizeScale in_size out_size align_corners) interpolation i).lower ∧
    (ComputeInterpolationWeights out_size in_size
          (CalculateResizeScale in_size out_size align_corners) interpolation i).lower ≤
      (ComputeInterpolationWeights out_size in_size
          (CalculateResizeScale in_size out_size align_corners) interpolation i).upper ∧
    (ComputeInterpolationWeights out_size in_size
          (CalculateResizeScale in_size out_size align_corners) interpolation i).upper ≤
      in_size - 1 := by
  rw [ComputeInterpolationWeights_entry _ _ _ _ _ hi]
  have hs := CalculateResizeScale_nonneg in_size out_size align_corners hin hout
  have hlt := CalculateResizeScale_lt in_size out_size align_corners hin i hi
  have hiq : (0 : ℚ) ≤ (i : ℚ) := by exact_mod_cast hi.1
  have hx : (0 : ℚ) ≤ (i : ℚ) * CalculateResizeScale in_size out_size align_corners :=
    mul_nonneg hiq hs
  have htr : truncToIndex ((i : ℚ) * CalculateResizeScale in_size out_size align_corners) =
      ⌊(i : ℚ) * CalculateResizeScale in_size out_size align_corners⌋ := by
    simp [truncToIndex, hx]
  have hfl0 : 0 ≤ ⌊(i : ℚ) * CalculateResizeScale in_size out_size align_corners⌋ :=
    Int.floor_nonneg.mpr hx
  have hfl1 : ⌊(i : ℚ) * CalculateResizeScale in_size out_size align_corners⌋ < in_size :=
    Int.floor_lt.mpr hlt
  simp only [htr]
  refine ⟨?_, ?_, hfl0, ?_, ?_⟩
  · exact sub_nonneg.mpr (Int.floor_le _)
  · have := Int.lt_floor_add_one ((i : ℚ) * CalculateResizeScale in_size out_size align_corners)
    linarith
  · exact le_min (by omega) (by omega)
  · exact min_le_right _ _

/-- C3, at a concrete input: entry `1` for `in_size = 4`, `out_size = 2`
without `align_corners`. -/
theorem ComputeInterpolationWeights_in_range_witness :
    0 ≤ (ComputeInterpolationWeights 2 4 (CalculateResizeScale 4 2 false)
          zeroInterpolation 1).lerp ∧
    (ComputeInterpolationWeights 2 4 (CalculateResizeScale 4 2 false)
          zeroInterpolation 1).lerp < 1 ∧
    0 ≤ (ComputeInterpolationWeights 2 4 (CalculateResizeScale 4 2 false)
          zeroInterpolation 1).lower ∧
    (ComputeInterpolationWeights 2 4 (CalculateResizeScale 4 2 false)
          zeroInterpolation 1).lower ≤
      (ComputeInterpolationWeights 2 4 (CalculateResizeScale 4 2 false)
          zeroInterpolation 1).upper ∧
    (ComputeInterpolationWeights 2 4 (CalculateResizeScale 4 2 false)
          zeroInterpolation 1).upper ≤ 4 - 1 :=
  ComputeInterpolationWeights_in_range 4 2 false zeroInterpolation 1 (by decide)
    (by decide) (by decide)

/-! ## Theorems: element-wise validation -/

theorem eqE_ok (a b : Int) : eqE (Except.ok a) (Except.ok b) = Except.ok (decide (a = b)) := rfl
theorem eqE_ok_pure (a b : Int) : eqE (Except.ok a) (pure b) = Except.ok (decide (a = b)) := rfl
theorem andE_ok (x y : Bool) : andE (Except.ok x) (Except.ok y) = Except.ok (x && y) := by
  cases x <;> rfl
theorem orE_ok (x y : Bool) : orE (Except.ok x) (Except.ok y) = Except.ok (x || y) := by
  cases x <;> rfl
theorem orE_ok_pure (x y : Bool) : orE (Except.ok x) (pure y) = Except.ok (x || y) := by
  cases x <;> rfl

theorem Tensor.dim_of_shape4 {α : Type} (t : Tensor α) (a b c d : Int) (h : t.shape = [a, b, c, d]) :
    t.dim 0 = Except.ok a ∧ t.dim 1 = Except.ok b ∧ t.dim 2 = Except.ok c ∧ t.dim 3 = Except.ok d := by
  simp [Tensor.dim, h]

theorem checkBroadcast_rank4 {α : Type} (b o : Tensor α) (n h w c n2 h2 w2 c2 : Int)
    (hb : b.shape = [n,h,w,c]) (ho : o.shape = [n2,h2,w2,c2]) :
    checkBroadcast b o = mace_check (allowedBroadcast b.shape o.shape) msgBroadcast := by
  obtain ⟨b0, b1, b2, b3⟩ := Tensor.dim_of_shape4 b _ _ _ _ hb
  obtain ⟨o0, o1, o2, o3⟩ := Tensor.dim_of_shape4 o _ _ _ _ ho
  have hr : ¬ (o.dim_size = 1) := by simp [Tensor.dim_size, ho]
  simp only [checkBroadcast, if_neg hr, b0, b1, b2, b3, o0, o1, o2, o3, eqE_ok, eqE_ok_pure, andE_ok, orE_ok, bind, Except.bind, hb, ho, allowedBroadcast]
  congr 1
  rw [Bool.eq_iff_iff]
  simp only [Bool.or_eq_true, Bool.and_eq_true, decide_eq_true_eq]
  omega

theorem checkBroadcast_rank1 {α : Type} (b o : Tensor α) (n h w c d : Int)
    (hb : b.shape = [n,h,w,c]) (ho : o.shape = [d]) :
    checkBroadcast b o = mace_check (allowedBroadcast b.shape o.shape) msgBroadcast := by
  obtain ⟨b0, b1, b2, b3⟩ := Tensor.dim_of_shape4 b _ _ _ _ hb
  have o0 : o.dim 0 = Except.ok d := by simp [Tensor.dim, ho]
  have hr : o.dim_size = 1 := by simp [Tensor.dim_size, ho]
  simp only [checkBroadcast, if_pos hr, b3, o0, eqE_ok, bind, Except.bind, hb, ho, allowedBroadcast]
  congr 1
  rw [Bool.eq_iff_iff]
  simp only [decide_eq_true_eq]
  omega

theorem mace_check_false (msg : String) :
    mace_check false msg = Except.error (Failure.check msg) := rfl

theorem mace_check_true (msg : String) : mace_check true msg = Except.ok () := rfl

theorem checkInputs_rank_mismatch {α : Type} (a b : Tensor α)
    (h1 : a.shape.length ≠ b.shape.length) (h2 : a.shape.length ≠ 1)
    (h3 : b.shape.length ≠ 1) :
    checkInputs a (some b) = Except.error (Failure.check msgSameShape) := by
  have hc : (decide (a.dim_size = b.dim_size) || decide (a.dim_size = 1) ||
      decide (b.dim_size = 1)) = false := by
    simp only [Tensor.dim_size, Bool.or_eq_false_iff, decide_eq_false_iff_not]
    omega
  simp only [checkInputs, hc, mace_check_false, bind, Except.bind]

theorem checkInputs_differ_left {α : Type} (a b : Tensor α)
    (hr : a.shape.length = b.shape.length ∨ a.shape.length = 1 ∨ b.shape.length = 1)
    (hlt : b.size < a.size) :
    checkInputs a (some b) =
      (checkBroadcast a b).map
        (fun _ => { input0 := a, input1 := some b, swapped := false }) := by
  have hc : (decide (a.dim_size = b.dim_size) || decide (a.dim_size = 1) ||
      decide (b.dim_size = 1)) = true := by
    simp only [Tensor.dim_size, Bool.or_eq_true, decide_eq_true_eq]
    omega
  have hne : a.size ≠ b.size := by omega
  have hnlt : ¬ a.size < b.size := by omega
  simp only [checkInputs, hc, mace_check_true, bind, Except.bind, if_pos hne, if_neg hnlt,
    Except.map, pure, Except.pure]

theorem checkInputs_differ_right {α : Type} (a b : Tensor α)
    (hr : a.shape.length = b.shape.length ∨ a.shape.length = 1 ∨ b.shape.length = 1)
    (hlt : a.size < b.size) :
    checkInputs a (some b) =
      (checkBroadcast b a).map
        (fun _ => { input0 := b, input1 := some a, swapped := true }) := by
  have hc : (decide (a.dim_size = b.dim_size) || decide (a.dim_size = 1) ||
      decide (b.dim_size = 1)) = true := by
    simp only [Tensor.dim_size, Bool.or_eq_true, decide_eq_true_eq]
    omega
  have hne : a.size ≠ b.size := by omega
  simp only [checkInputs, hc, mace_check_true, bind, Except.bind, if_pos hne, if_pos hlt,
    Except.map, pure, Except.pure]

theorem checkInputs_equal_count {α : Type} (a b : Tensor α)
    (hr : a.shape.length = b.shape.length ∨ a.shape.length = 1 ∨ b.shape.length = 1)
    (heq : a.size = b.size) :
    checkInputs a (some b) =
      Except.ok { input0 := a, input1 := some b, swapped := false } := by
  have hc : (decide (a.dim_size = b.dim_size) || decide (a.dim_size = 1) ||
      decide (b.dim_size = 1)) = true := by
    simp only [Tensor.dim_size, Bool.or_eq_true, decide_eq_true_eq]
    omega
  simp only [checkInputs, hc, mace_check_true, bind, Except.bind, heq, ne_eq,
    not_true_eq_false, if_false, pure, Except.pure]

/-- C4, amended: for every two present inputs whose element counts differ, whose
larger operand is a rank-4 base `(n, h, w, c)` and whose smaller operand
matches none of the three allowed broadcast patterns, the shape validation of
`Compute` fails with a shape-mismatch error, in either argument order. -/
theorem checkInputs_rejects_disallowed {α : Type} (base other : Tensor α) (n h w c : Int)
    (hb : base.shape = [n, h, w, c]) (hsize : other.size < base.size)
    (hpat : allowedBroadcast base.shape other.shape = false) :
    ∃ e : Failure, e.isShapeMismatch = true ∧
      checkInputs base (some other) = Except.error e ∧
      checkInputs other (some base) = Except.error e := by
  have hlen : base.shape.length = 4 := by rw [hb]; rfl
  rcases ho : other.shape with _ | ⟨d0, _ | ⟨d1, _ | ⟨d2, _ | ⟨d3, _ | ⟨d4, l⟩⟩⟩⟩⟩
  · refine ⟨Failure.check msgSameShape, by decide, ?_, ?_⟩
    · exact checkInputs_rank_mismatch _ _ (by simp [hb, ho]) (by simp [hb]) (by simp [ho])
    · exact checkInputs_rank_mismatch _ _ (by simp [hb, ho]) (by simp [ho]) (by simp [hb])
  · refine ⟨Failure.check msgBroadcast, by decide, ?_, ?_⟩
    · rw [checkInputs_differ_left _ _ (by simp [ho]) hsize,
        checkBroadcast_rank1 _ _ _ _ _ _ _ hb ho, hpat]
      rfl
    · rw [checkInputs_differ_right _ _ (by simp [ho]) hsize,
        checkBroadcast_rank1 _ _ _ _ _ _ _ hb ho, hpat]
      rfl
  · refine ⟨Failure.check msgSameShape, by decide, ?_, ?_⟩
    · exact checkInputs_rank_mismatch _ _ (by simp [hb, ho]) (by simp [hb]) (by simp [ho])
    · exact checkInputs_rank_mismatch _ _ (by simp [hb, ho]) (by simp [ho]) (by simp [hb])
  · refine ⟨Failure.check msgSameShape, by decide, ?_, ?_⟩
    · exact checkInputs_rank_mismatch _ _ (by simp [hb, ho]) (by simp [hb]) (by simp [ho])
    · exact checkInputs_rank_mismatch _ _ (by simp [hb, ho]) (by simp [ho]) (by simp [hb])
  · refine ⟨Failure.check msgBroadcast, by decide, ?_, ?_⟩
    · rw [checkInputs_differ_left _ _ (by simp [hb, ho]) hsize,
        checkBroadcast_rank4 _ _ _ _ _ _ _ _ _ _ hb ho, hpat]
      rfl
    · rw [checkInputs_differ_right _ _ (by simp [hb, ho]) hsize,
        checkBroadcast_rank4 _ _ _ _ _ _ _ _ _ _ hb ho, hpat]
      rfl
  · refine ⟨Failure.check msgSameShape, by decide, ?_, ?_⟩
    · exact checkInputs_rank_mismatch _ _ (by simp [hb, ho]) (by simp [hb]) (by simp [ho])
    · exact checkInputs_rank_mismatch _ _ (by simp [hb, ho]) (by simp [ho]) (by simp [hb])

/-- C4, refuted as stated: `(1, 2, 2, 4)` and `(1, 4, 2, 2)` are not identical and
match none of the allowed broadcast patterns in either role, yet the shape
validation passes, because the element counts are equal, and `Compute` goes
on to resize the output and launch the kernel. -/
theorem equal_count_mismatch_passes_validation :
    ([1, 2, 2, 4] : List Int) ≠ [1, 4, 2, 2] ∧
    allowedBroadcast [1, 2, 2, 4] [1, 4, 2, 2] = false ∧
    allowedBroadcast [1, 4, 2, 2] [1, 2, 2, 4] = false ∧
    checkInputs (shapeOnly [1, 2, 2, 4]) (some (shapeOnly [1, 4, 2, 2])) =
      Except.ok { input0 := shapeOnly [1, 2, 2, 4], input1 := some (shapeOnly [1, 4, 2, 2]),
                  swapped := false } ∧
    (EltwiseKernel.Compute plainRuntime (EltwiseKernel.new 0 [] 0 1) (shapeOnly [1, 2, 2, 4])
        (some (shapeOnly [1, 4, 2, 2])) (shapeOnly [])).map (fun r => r.output.shape) =
      Except.ok [1, 2, 2, 4] :=
  ⟨by decide, by decide, by decide, rfl, rfl⟩

/-- C4, amended, at a concrete input: `(1, 2, 2, 4)` with `(1, 3, 3, 4)` fails in
both orders. -/
theorem checkInputs_rejects_disallowed_witness :
    ∃ e : Failure, e.isShapeMismatch = true ∧
      checkInputs (shapeOnly [1, 3, 3, 4]) (some (shapeOnly [1, 2, 2, 4])) = Except.error e ∧
      checkInputs (shapeOnly [1, 2, 2, 4]) (some (shapeOnly [1, 3, 3, 4])) = Except.error e :=
  checkInputs_rejects_disallowed (shapeOnly [1, 3, 3, 4]) (shapeOnly [1, 2, 2, 4]) 1 3 3 4 rfl
    (by decide) (by decide)

theorem checkInputs_of_allowed {α : Type} (base other : Tensor α)
    (hr : base.shape.length = other.shape.length ∨ base.shape.length = 1 ∨
      other.shape.length = 1)
    (hle : other.size ≤ base.size)
    (hcb : checkBroadcast base other = Except.ok ()) :
    checkInputs base (some other) =
      Except.ok { input0 := base, input1 := some other, swapped := false } ∧
    checkInputs other (some base) =
      Except.ok (if other.size < base.size then
          { input0 := base, input1 := some other, swapped := true }
        else { input0 := other, input1 := some base, swapped := false }) := by
  have hr2 : other.shape.length = base.shape.length ∨ other.shape.length = 1 ∨
      base.shape.length = 1 := by omega
  rcases eq_or_lt_of_le hle with heq | hlt
  · have hn : ¬ other.size < base.size := by omega
    rw [if_neg hn]
    exact ⟨checkInputs_equal_count _ _ hr heq.symm, checkInputs_equal_count _ _ hr2 heq⟩
  · rw [if_pos hlt]
    constructor
    · rw [checkInputs_differ_left _ _ hr hlt, hcb]; rfl
    · rw [checkInputs_differ_right _ _ hr2 hlt, hcb]; rfl

theorem checkInputs_of_allowed_passes {α : Type} (base other : Tensor α)
    (hr : base.shape.length = other.shape.length ∨ base.shape.length = 1 ∨
      other.shape.length = 1)
    (hle : other.size ≤ base.size)
    (hcb : checkBroadcast base other = Except.ok ()) :
    (∃ r, checkInputs base (some other) = Except.ok r) ∧
    (∃ r, checkInputs other (some base) = Except.ok r) :=
  ⟨⟨_, (checkInputs_of_allowed base other hr hle hcb).1⟩,
    ⟨_, (checkInputs_of_allowed base other hr hle hcb).2⟩⟩

/-- C5: for every rank-4 base shape `(N, H, W, C)` with positive extents and
every other operand of shape `(C)`, `(N, 1, 1, C)`, `(1, 1, 1, C)` or
`(N, H, W, 1)`, the shape validation of `Compute` passes, whether the base is
passed as `input0` or as `input1`. -/
theorem checkInputs_accepts_allowed_patterns {α : Type} (base other : Tensor α) (N H W C : Int)
    (hN : 1 ≤ N) (hH : 1 ≤ H) (hW : 1 ≤ W) (hC : 1 ≤ C)
    (hb : base.shape = [N, H, W, C])
    (ho : other.shape = [C] ∨ other.shape = [N, 1, 1, C] ∨ other.shape = [1, 1, 1, C] ∨
      other.shape = [N, H, W, 1]) :
    (∃ r, checkInputs base (some other) = Except.ok r) ∧
    (∃ r, checkInputs other (some base) = Except.ok r) := by
  have hNH : 1 ≤ N * H := by nlinarith
  have hHW : 1 ≤ H * W := by nlinarith
  have hNHW : 1 ≤ N * H * W := by nlinarith
  have hsb : base.size = N * H * W * C := by simp [Tensor.size, hb]
  rcases ho with ho | ho | ho | ho
  · apply checkInputs_of_allowed_passes
    · simp [hb, ho]
    · have hso : other.size = C := by simp [Tensor.size, ho]
      rw [hsb, hso]; nlinarith
    · rw [checkBroadcast_rank1 _ _ _ _ _ _ _ hb ho, hb, ho]
      simp [allowedBroadcast, mace_check_true]
  · apply checkInputs_of_allowed_passes
    · simp [hb, ho]
    · have hso : other.size = N * C := by simp [Tensor.size, ho]
      rw [hsb, hso]
      have : N * C * 1 ≤ N * C * (H * W) := by
        apply mul_le_mul_of_nonneg_left hHW; nlinarith
      nlinarith
    · rw [checkBroadcast_rank4 _ _ _ _ _ _ _ _ _ _ hb ho, hb, ho]
      simp [allowedBroadcast, mace_check_true]
  · apply checkInputs_of_allowed_passes
    · simp [hb, ho]
    · have hso : other.size = C := by simp [Tensor.size, ho]
      rw [hsb, hso]; nlinarith
    · rw [checkBroadcast_rank4 _ _ _ _ _ _ _ _ _ _ hb ho, hb, ho]
      simp [allowedBroadcast, mace_check_true]
  · apply checkInputs_of_allowed_passes
    · simp [hb, ho]
    · have hso : other.size = N * H * W := by simp [Tensor.size, ho]
      rw [hsb, hso]; nlinarith
    · rw [checkBroadcast_rank4 _ _ _ _ _ _ _ _ _ _ hb ho, hb, ho]
      simp [allowedBroadcast, mace_check_true]

/-- C5, at a concrete input: `(1, 2, 2, 4)` with `(4)`, in both orders. -/
theorem checkInputs_accepts_allowed_patterns_witness :
    (∃ r, checkInputs (shapeOnly [1, 2, 2, 4]) (some (shapeOnly [4])) = Except.ok r) ∧
    (∃ r, checkInputs (shapeOnly [4]) (some (shapeOnly [1, 2, 2, 4])) = Except.ok r) :=
  checkInputs_accepts_allowed_patterns (shapeOnly [1, 2, 2, 4]) (shapeOnly [4]) 1 2 2 4
    (by decide) (by decide) (by decide) (by decide) rfl (Or.inl rfl)

/-! ## Theorems: element-wise `Compute` -/

theorem outputShape_of_shape {α : Type} (t : Tensor α) (d0 d1 d2 d3 : Int) (rest : List Int)
    (h : t.shape = d0 :: d1 :: d2 :: d3 :: rest) :
    outputShape t = Except.ok [d0, d1, d2, d3] := by
  simp [outputShape, Tensor.dim, h, bind, Except.bind, pure, Except.pure]

theorem outputShape_short {α : Type} (t : Tensor α) (h : t.shape.length < 4) :
    outputShape t = Except.error Failure.dimOutOfRange := by
  rcases hs : t.shape with _ | ⟨d0, _ | ⟨d1, _ | ⟨d2, _ | ⟨d3, l⟩⟩⟩⟩
  · simp [outputShape, Tensor.dim, hs, bind, Except.bind]
  · simp [outputShape, Tensor.dim, hs, bind, Except.bind]
  · simp [outputShape, Tensor.dim, hs, bind, Except.bind]
  · simp [outputShape, Tensor.dim, hs, bind, Except.bind]
  · rw [hs] at h; simp at h; omega

theorem Compute_eq {α : Type} (rt : OpenCLRuntime) (self : EltwiseKernel)
    (input0 : Tensor α) (input1 : Option (Tensor α)) (output : Tensor α)
    (ci : CheckedInputs α) (d0 d1 d2 d3 : Int) (rest : List Int)
    (hci : checkInputs input0 input1 = Except.ok ci)
    (hs : ci.input0.shape = d0 :: d1 :: d2 :: d3 :: rest) :
    EltwiseKernel.Compute rt self input0 input1 output =
      (rt.allocImage [d0, d1, d2, d3] (rt.CalImage2DShape [d0, d1, d2, d3])).bind fun _ =>
      (buildStep rt self ci.input0 ci.input1
        (adjustSwapped self.scalar_input_index_ ci.swapped)).bind fun built =>
      (rt.TuningOrRun3DKernel
        (bindStep rt built.1 built.2
          [toUint32 (RoundUpDiv4 d3), toUint32 d2, toUint32 (d0 * d1)]
          ci.input0 ci.input1 d1 d2 d3 { output with shape := [d0, d1, d2, d3] }).2
        (rt.Concat "eltwise_opencl_kernel" [d0, d1, d2, d3])
        [toUint32 (RoundUpDiv4 d3), toUint32 d2, toUint32 (d0 * d1)]
        (rt.Default3DLocalWS [toUint32 (RoundUpDiv4 d3), toUint32 d2, toUint32 (d0 * d1)]
          (bindStep rt built.1 built.2
            [toUint32 (RoundUpDiv4 d3), toUint32 d2, toUint32 (d0 * d1)]
            ci.input0 ci.input1 d1 d2 d3 { output with shape := [d0, d1, d2, d3] }).1.kwg_size_)).bind
      fun _ =>
      Except.ok
        { self := (bindStep rt built.1 built.2
            [toUint32 (RoundUpDiv4 d3), toUint32 d2, toUint32 (d0 * d1)]
            ci.input0 ci.input1 d1 d2 d3 { output with shape := [d0, d1, d2, d3] }).1
          output := { output with shape := [d0, d1, d2, d3] }
          launch :=
            { kernel := (bindStep rt built.1 built.2
                [toUint32 (RoundUpDiv4 d3), toUint32 d2, toUint32 (d0 * d1)]
                ci.input0 ci.input1 d1 d2 d3 { output with shape := [d0, d1, d2, d3] }).2
              tuning_key := rt.Concat "eltwise_opencl_kernel" [d0, d1, d2, d3]
              gws := [toUint32 (RoundUpDiv4 d3), toUint32 d2, toUint32 (d0 * d1)]
              lws := rt.Default3DLocalWS
                [toUint32 (RoundUpDiv4 d3), toUint32 d2, toUint32 (d0 * d1)]
                (bindStep rt built.1 built.2
                  [toUint32 (RoundUpDiv4 d3), toUint32 d2, toUint32 (d0 * d1)]
                  ci.input0 ci.input1 d1 d2 d3
                  { output with shape := [d0, d1, d2, d3] }).1.kwg_size_ }
          input0 := ci.input0
          input1 := ci.input1
          swapped := adjustSwapped self.scalar_input_index_ ci.swapped } := by
  simp only [EltwiseKernel.Compute, hci, outputShape_of_shape _ _ _ _ _ _ hs,
    Tensor.ResizeImage, bind, Except.bind, pure, Except.pure]
  cases rt.allocImage [d0, d1, d2, d3] (rt.CalImage2DShape [d0, d1, d2, d3]) with
  | error e => rfl
  | ok u =>
    simp only [Tensor.dim, List.get?, bind, Except.bind]

theorem checkInputs_ok_inv {α : Type} (input0 : Tensor α) (input1 : Option (Tensor α))
    (ci : CheckedInputs α) (h : checkInputs input0 input1 = Except.ok ci) :
    ci.input0 = baseOperand input0 input1 ∧
    ci.swapped = (match input1 with
      | none => false
      | some input1 => decide (input0.size < input1.size)) ∧
    ci.input1 = (match input1 with
      | none => none
      | some input1 => if input0.size < input1.size then some input0 else some input1) := by
  cases input1 with
  | none =>
    simp only [checkInputs, pure, Except.pure, Except.ok.injEq] at h
    subst h
    simp [baseOperand]
  | some i1 =>
    simp only [checkInputs, bind, Except.bind] at h
    cases hc : mace_check (decide (input0.dim_size = i1.dim_size) ||
        decide (input0.dim_size = 1) || decide (i1.dim_size = 1)) msgSameShape with
    | error e => rw [hc] at h; simp at h
    | ok u =>
      rw [hc] at h
      simp only [] at h
      by_cases hne : input0.size = i1.size
      · have hnlt : ¬ input0.size < i1.size := by omega
        simp only [hne, ne_eq, not_true_eq_false, if_false, pure, Except.pure,
          Except.ok.injEq] at h
        subst h
        simp [baseOperand, hne]
      · rw [if_pos hne] at h
        by_cases hlt : input0.size < i1.size
        · rw [if_pos hlt] at h
          cases hb : checkBroadcast i1 input0 with
          | error e => rw [hb] at h; simp at h
          | ok u2 =>
            rw [hb] at h
            simp only [pure, Except.pure, Except.ok.injEq] at h
            subst h
            simp [baseOperand, hlt]
        · rw [if_neg hlt] at h
          cases hb : checkBroadcast input0 i1 with
          | error e => rw [hb] at h; simp at h
          | ok u2 =>
            rw [hb] at h
            simp only [pure, Except.pure, Except.ok.injEq] at h
            subst h
            simp [baseOperand, hlt]

theorem Compute_ok_inv {α : Type} (rt : OpenCLRuntime) (self : EltwiseKernel)
    (input0 : Tensor α) (input1 : Option (Tensor α)) (output : Tensor α)
    (r : ComputeResult α)
    (h : EltwiseKernel.Compute rt self input0 input1 output = Except.ok r) :
    ∃ (ci : CheckedInputs α) (d0 d1 d2 d3 : Int) (rest : List Int)
      (built : EltwiseKernel × Kernel),
      checkInputs input0 input1 = Except.ok ci ∧
      ci.input0.shape = d0 :: d1 :: d2 :: d3 :: rest ∧
      buildStep rt self ci.input0 ci.input1
        (adjustSwapped self.scalar_input_index_ ci.swapped) = Except.ok built ∧
      r.input0 = ci.input0 ∧ r.input1 = ci.input1 ∧
      r.swapped = adjustSwapped self.scalar_input_index_ ci.swapped ∧
      r.output = { output with shape := [d0, d1, d2, d3] } ∧
      r.launch.gws = [toUint32 (RoundUpDiv4 d3), toUint32 d2, toUint32 (d0 * d1)] ∧
      r.self = (bindStep rt built.1 built.2
          [toUint32 (RoundUpDiv4 d3), toUint32 d2, toUint32 (d0 * d1)]
          ci.input0 ci.input1 d1 d2 d3 { output with shape := [d0, d1, d2, d3] }).1 ∧
      r.launch.kernel = (bindStep rt built.1 built.2
          [toUint32 (RoundUpDiv4 d3), toUint32 d2, toUint32 (d0 * d1)]
          ci.input0 ci.input1 d1 d2 d3 { output with shape := [d0, d1, d2, d3] }).2 := by
  cases hci : checkInputs input0 input1 with
  | error e =>
    simp [EltwiseKernel.Compute, hci, bind, Except.bind] at h
  | ok ci =>
    by_cases hlen : ci.input0.shape.length < 4
    · simp [EltwiseKernel.Compute, hci, outputShape_short _ hlen, bind, Except.bind] at h
    · rcases hs : ci.input0.shape with _ | ⟨d0, _ | ⟨d1, _ | ⟨d2, _ | ⟨d3, rest⟩⟩⟩⟩
      · rw [hs] at hlen; simp at hlen
      · rw [hs] at hlen; simp at hlen
      · rw [hs] at hlen; simp at hlen
      · rw [hs] at hlen; simp at hlen
      · rw [Compute_eq rt self input0 input1 output ci d0 d1 d2 d3 rest hci hs] at h
        cases ha : rt.allocImage [d0, d1, d2, d3] (rt.CalImage2DShape [d0, d1, d2, d3]) with
        | error e => rw [ha] at h; simp [Except.bind] at h
        | ok u =>
          rw [ha] at h
          simp only [Except.bind] at h
          cases hbd : buildStep rt self ci.input0 ci.input1
              (adjustSwapped self.scalar_input_index_ ci.swapped) with
          | error e => rw [hbd] at h; simp at h
          | ok built =>
            rw [hbd] at h
            simp only [] at h
            split at h
            · simp at h
            · simp only [Except.ok.injEq] at h
              subst h
              exact ⟨ci, d0, d1, d2, d3, rest, built, rfl, hs, hbd, rfl, rfl, rfl, rfl, rfl,
                rfl, rfl⟩

theorem bindArgs_built_options {α : Type} (rt : OpenCLRuntime) (self : EltwiseKernel)
    (kernel : Kernel) (gws : List Int) (input0 : Tensor α) (input1 : Option (Tensor α))
    (height width channels : Int) (output : Tensor α) :
    (bindArgs rt self kernel gws input0 input1 height width channels output).built_options =
      kernel.built_options := by
  have key : ∀ (l : List KernelArg) (st : Kernel × Nat),
      (l.foldl (fun (st : Kernel × Nat) v => (st.1.setArg st.2 v, st.2 + 1)) st).1.built_options =
        st.1.built_options := by
    intro l
    induction l with
    | nil => intro st; rfl
    | cons v l ih =>
      intro st
      rw [List.foldl_cons, ih]
      rfl
  unfold bindArgs
  exact key _ (kernel, 0)

/-- The effect of one successful `Compute` call on the instance. -/
theorem Compute_ok_state {α : Type} (rt : OpenCLRuntime) (self : EltwiseKernel)
    (input0 : Tensor α) (input1 : Option (Tensor α)) (output : Tensor α)
    (r : ComputeResult α)
    (h : EltwiseKernel.Compute rt self input0 input1 output = Except.ok r) :
    r.self.kernel_ = some r.launch.kernel ∧
    r.self.input_shape_ = r.input0.shape ∧
    r.self.build_calls = self.build_calls + (if self.kernel_ = none then 1 else 0) ∧
    r.self.bind_passes =
      self.bind_passes + (if self.input_shape_ = r.input0.shape then 0 else 1) ∧
    (∀ k, self.kernel_ = some k → r.launch.kernel.built_options = k.built_options) ∧
    (self.kernel_ = none →
      builtOptions rt self.type_ self.coeff_ r.input0 r.input1 r.swapped =
        Except.ok r.launch.kernel.built_options) := by
  obtain ⟨ci, d0, d1, d2, d3, rest, built, hci, hs, hbd, h0, h1, hsw, hout, hgws, hself, hker⟩ :=
    Compute_ok_inv rt self input0 input1 output r h
  rw [hself, hker, h0, h1, hsw]
  cases hk : self.kernel_ with
  | some k =>
    simp only [buildStep, hk, pure, Except.pure, Except.ok.injEq] at hbd
    subst hbd
    by_cases hsh : self.input_shape_ = ci.input0.shape
    · simp [bindStep, hsh, hk]
    · simp [bindStep, hsh, hk, bindArgs_built_options]
  | none =>
    simp only [buildStep, hk, bind, Except.bind, pure, Except.pure] at hbd
    cases hbo : builtOptions rt self.type_ self.coeff_ ci.input0 ci.input1
        (adjustSwapped self.scalar_input_index_ ci.swapped) with
    | error e => rw [hbo] at hbd; simp at hbd
    | ok opts =>
      rw [hbo] at hbd
      simp only [] at hbd
      cases hbk : rt.BuildKernel rt.kernel_name opts with
      | error e => rw [hbk] at hbd; simp at hbd
      | ok u =>
        rw [hbk] at hbd
        simp only [Except.ok.injEq] at hbd
        subst hbd
        by_cases hsh : self.input_shape_ = ci.input0.shape
        · simp [bindStep, hsh]
        · simp [bindStep, hsh, bindArgs_built_options]

/-- Every successful `Compute` call leaves an output of rank 4. -/
theorem Compute_ok_output_rank {α : Type} (rt : OpenCLRuntime) (self : EltwiseKernel)
    (input0 : Tensor α) (input1 : Option (Tensor α)) (output : Tensor α)
    (r : ComputeResult α)
    (h : EltwiseKernel.Compute rt self input0 input1 output = Except.ok r) :
    r.output.shape.length = 4 := by
  obtain ⟨ci, d0, d1, d2, d3, rest, built, -, -, -, -, -, -, hout, -⟩ :=
    Compute_ok_inv rt self input0 input1 output r h
  rw [hout]
  rfl

theorem checkInputs_shape_congr {α : Type} (a0 b0 : Tensor α) (a1 b1 : Option (Tensor α))
    (ca cb : CheckedInputs α)
    (h0 : b0.shape = a0.shape) (h1 : b1.map Tensor.shape = a1.map Tensor.shape)
    (ha : checkInputs a0 a1 = Except.ok ca) (hb : checkInputs b0 b1 = Except.ok cb) :
    cb.input0.shape = ca.input0.shape := by
  rw [(checkInputs_ok_inv a0 a1 ca ha).1, (checkInputs_ok_inv b0 b1 cb hb).1]
  cases a1 with
  | none =>
    cases b1 with
    | none => simpa [baseOperand] using h0
    | some y => simp at h1
  | some x =>
    cases b1 with
    | none => simp at h1
    | some y =>
      simp only [Option.map_some', Option.some.injEq] at h1
      have hs0 : b0.size = a0.size := by simp [Tensor.size, h0]
      have hs1 : y.size = x.size := by simp [Tensor.size, h1]
      simp only [baseOperand, hs0, hs1]
      split <;> assumption

/-- C7: after a successful `Compute` call on any instance, a second successful
call with identical input shapes performs no `BuildKernel` call and no
argument-binding pass, and a following successful call whose base input shape
differs performs no `BuildKernel` call and exactly one argument-binding pass,
leaving the cached shape equal to the new base shape. -/
theorem Compute_cache_idempotent {α : Type} (rt1 rt2 rt3 : OpenCLRuntime)
    (self : EltwiseKernel)
    (a0 b0 c0 : Tensor α) (a1 b1 c1 : Option (Tensor α)) (out1 out2 out3 : Tensor α)
    (r1 r2 r3 : ComputeResult α)
    (h1 : EltwiseKernel.Compute rt1 self a0 a1 out1 = Except.ok r1)
    (hsame0 : b0.shape = a0.shape)
    (hsame1 : b1.map Tensor.shape = a1.map Tensor.shape)
    (h2 : EltwiseKernel.Compute rt2 r1.self b0 b1 out2 = Except.ok r2)
    (h3 : EltwiseKernel.Compute rt3 r2.self c0 c1 out3 = Except.ok r3)
    (hdiff : r3.input0.shape ≠ r2.input0.shape) :
    r2.self.build_calls = r1.self.build_calls ∧
    r2.self.bind_passes = r1.self.bind_passes ∧
    r3.self.build_calls = r2.self.build_calls ∧
    r3.self.bind_passes = r2.self.bind_passes + 1 ∧
    r3.self.input_shape_ = r3.input0.shape := by
  obtain ⟨k1, s1, -, -, -, -⟩ := Compute_ok_state rt1 self a0 a1 out1 r1 h1
  obtain ⟨k2, s2, bc2, bp2, -, -⟩ := Compute_ok_state rt2 r1.self b0 b1 out2 r2 h2
  obtain ⟨k3, s3, bc3, bp3, -, -⟩ := Compute_ok_state rt3 r2.self c0 c1 out3 r3 h3
  obtain ⟨ca, _, _, _, _, _, _, hca, -, -, ha0, -⟩ := Compute_ok_inv rt1 self a0 a1 out1 r1 h1
  obtain ⟨cb, _, _, _, _, _, _, hcb, -, -, hb0, -⟩ :=
    Compute_ok_inv rt2 r1.self b0 b1 out2 r2 h2
  have hshape : r2.input0.shape = r1.input0.shape := by
    rw [ha0, hb0]
    exact checkInputs_shape_congr a0 b0 a1 b1 ca cb hsame0 hsame1 hca hcb
  have e1 : r1.self.input_shape_ = r2.input0.shape := by rw [s1, hshape]
  have e2 : ¬ r2.self.input_shape_ = r3.input0.shape := by
    rw [s2]; exact fun h => hdiff h.symm
  rw [k1] at bc2
  rw [k2] at bc3
  rw [if_pos e1] at bp2
  rw [if_neg e2] at bp3
  simp only [if_false, add_zero] at bc2 bc3 bp2
  exact ⟨bc2, bp2, bc3, bp3, s3⟩

/-- C7, at a concrete input: three calls on a fresh instance, the third with
another base shape. -/
theorem Compute_cache_idempotent_witness :
    ∃ r1 r2 r3 : ComputeResult Unit,
      EltwiseKernel.Compute plainRuntime (EltwiseKernel.new 0 [] 0 1)
        (shapeOnly [1, 2, 2, 4]) (some (shapeOnly [4])) (shapeOnly []) = Except.ok r1 ∧
      EltwiseKernel.Compute plainRuntime r1.self
        (shapeOnly [1, 2, 2, 4]) (some (shapeOnly [4])) (shapeOnly []) = Except.ok r2 ∧
      EltwiseKernel.Compute plainRuntime r2.self
        (shapeOnly [1, 3, 3, 4]) (some (shapeOnly [4])) (shapeOnly []) = Except.ok r3 ∧
      r2.self.build_calls = r1.self.build_calls ∧
      r2.self.bind_passes = r1.self.bind_passes ∧
      r3.self.build_calls = r2.self.build_calls ∧
      r3.self.bind_passes = r2.self.bind_passes + 1 ∧
      r3.self.input_shape_ = r3.input0.shape := by
  refine ⟨?r1, ?r2, ?r3, ?h1, ?h2, ?h3, ?c⟩
  case h1 => exact rfl
  case h2 => exact rfl
  case h3 => exact rfl
  case c =>
    exact Compute_cache_idempotent plainRuntime plainRuntime plainRuntime
      (EltwiseKernel.new 0 [] 0 1) (shapeOnly [1, 2, 2, 4]) (shapeOnly [1, 2, 2, 4])
      (shapeOnly [1, 3, 3, 4]) (some (shapeOnly [4])) (some (shapeOnly [4]))
      (some (shapeOnly [4])) (shapeOnly []) (shapeOnly []) (shapeOnly []) _ _ _
      rfl rfl rfl rfl rfl (by decide)

/-- C8, refuted as stated: after a first call with `(1, 2, 2, 4)` and
`(1, 2, 2, 1)` (compiled with `-DINPUT_TYPE=4`), a second successful call with
`(1, 2, 2, 4)` and `(4)` derives an option set containing `-DINPUT_TYPE=3`, but
performs no compilation and launches the kernel built with `-DINPUT_TYPE=4`. -/
theorem Compute_keeps_kernel_on_option_change :
    ∃ (r1 r2 : ComputeResult Unit) (derived : List String),
      EltwiseKernel.Compute plainRuntime (EltwiseKernel.new 0 [] 0 1)
        (shapeOnly [1, 2, 2, 4]) (some (shapeOnly [1, 2, 2, 1])) (shapeOnly []) = Except.ok r1 ∧
      EltwiseKernel.Compute plainRuntime r1.self
        (shapeOnly [1, 2, 2, 4]) (some (shapeOnly [4])) (shapeOnly []) = Except.ok r2 ∧
      builtOptions plainRuntime r1.self.type_ r1.self.coeff_ r2.input0 r2.input1 r2.swapped =
        Except.ok derived ∧
      "-DINPUT_TYPE=3" ∈ derived ∧
      "-DINPUT_TYPE=3" ∉ r2.launch.kernel.built_options ∧
      "-DINPUT_TYPE=4" ∈ r2.launch.kernel.built_options ∧
      r2.self.build_calls = r1.self.build_calls := by
  refine ⟨?r1, ?r2, ?d, ?h1, ?h2, ?h3, ?c1, ?c2, ?c3, ?c4⟩
  case h1 => exact rfl
  case h2 => exact rfl
  case h3 => exact rfl
  case c1 => decide
  case c2 => decide
  case c3 => decide
  case c4 => rfl

/-- C8, amended: a successful `Compute` call compiles exactly when the instance
holds no kernel, and then builds the kernel with the option set derived from
that call's inputs; on an instance that already holds a kernel the call
performs no compilation and launches the held kernel, whose option set is
unchanged. -/
theorem Compute_compiles_iff_no_kernel {α : Type} (rt : OpenCLRuntime) (self : EltwiseKernel)
    (input0 : Tensor α) (input1 : Option (Tensor α)) (output : Tensor α)
    (r : ComputeResult α)
    (h : EltwiseKernel.Compute rt self input0 input1 output = Except.ok r) :
    r.self.kernel_ = some r.launch.kernel ∧
    (∀ k, self.kernel_ = some k →
      r.self.build_calls = self.build_calls ∧
      r.launch.kernel.built_options = k.built_options) ∧
    (self.kernel_ = none →
      r.self.build_calls = self.build_calls + 1 ∧
      builtOptions rt self.type_ self.coeff_ r.input0 r.input1 r.swapped =
        Except.ok r.launch.kernel.built_options) := by
  obtain ⟨hk, -, hbc, -, hheld, hnew⟩ := Compute_ok_state rt self input0 input1 output r h
  refine ⟨hk, ?_, ?_⟩
  · intro k hself
    refine ⟨?_, hheld k hself⟩
    rw [hbc, hself]; simp
  · intro hself
    refine ⟨?_, hnew hself⟩
    rw [hbc, hself]; simp

/-- C8, amended, at a concrete input: two calls on a fresh instance. -/
theorem Compute_compiles_iff_no_kernel_witness :
    ∃ r1 r2 : ComputeResult Unit,
      EltwiseKernel.Compute plainRuntime (EltwiseKernel.new 0 [] 0 1)
        (shapeOnly [1, 2, 2, 4]) (some (shapeOnly [1, 2, 2, 1])) (shapeOnly []) = Except.ok r1 ∧
      EltwiseKernel.Compute plainRuntime r1.self
        (shapeOnly [1, 2, 2, 4]) (some (shapeOnly [4])) (shapeOnly []) = Except.ok r2 ∧
      r1.self.build_calls = 0 + 1 ∧
      r2.self.build_calls = r1.self.build_calls ∧
      r2.launch.kernel.built_options = r1.launch.kernel.built_options := by
  refine ⟨?r1, ?r2, ?h1, ?h2, ?c1, ?c2⟩
  case h1 => exact rfl
  case h2 => exact rfl
  case c1 =>
    exact ((Compute_compiles_iff_no_kernel plainRuntime (EltwiseKernel.new 0 [] 0 1)
      (shapeOnly [1, 2, 2, 4]) (some (shapeOnly [1, 2, 2, 1])) (shapeOnly []) _ rfl).2.2
      rfl).1
  case c2 =>
    exact (Compute_compiles_iff_no_kernel plainRuntime (?r1).self
      (shapeOnly [1, 2, 2, 4]) (some (shapeOnly [4])) (shapeOnly []) ?r2 rfl).2.1 _ rfl

/-- C9, refuted as stated: with `scalar_input_index_ = 0` and two present inputs
of equal element count, the final `swapped` flag of a successful call is
true. -/
theorem Compute_swapped_with_scalar_index_zero :
    (EltwiseKernel.Compute plainRuntime (EltwiseKernel.new 0 [] 0 0)
        (shapeOnly [1, 2, 2, 4]) (some (shapeOnly [1, 2, 2, 4])) (shapeOnly [])).map
      (fun r => r.swapped) = Except.ok true ∧
    (shapeOnly [1, 2, 2, 4]).size = (shapeOnly [1, 2, 2, 4]).size :=
  ⟨rfl, rfl⟩

/-- C9, amended: for every pair of present inputs that passes the validation,
the flag recorded by the exchange step is true exactly when
`input0.size() < input1.size()`, exactly then the operands are exchanged, and
the base used afterwards is the operand with the larger element count; the
final flag of a successful call is this value when `scalar_input_index_ != 0`
and its negation when `scalar_input_index_ == 0`. -/
theorem Compute_swapped_flag {α : Type} (input0 input1 : Tensor α) (ci : CheckedInputs α)
    (hacc : checkInputs input0 (some input1) = Except.ok ci) :
    (ci.swapped = true ↔ input0.size < input1.size) ∧
    (input0.size < input1.size → ci.input0 = input1 ∧ ci.input1 = some input0) ∧
    (¬ input0.size < input1.size → ci.input0 = input0 ∧ ci.input1 = some input1) ∧
    input0.size ≤ ci.input0.size ∧ input1.size ≤ ci.input0.size ∧
    (∀ (rt : OpenCLRuntime) (self : EltwiseKernel) (output : Tensor α) (r : ComputeResult α),
      EltwiseKernel.Compute rt self input0 (some input1) output = Except.ok r →
        r.input0 = ci.input0 ∧ r.input1 = ci.input1 ∧
        (self.scalar_input_index_ ≠ 0 → (r.swapped = true ↔ input0.size < input1.size)) ∧
        (self.scalar_input_index_ = 0 → (r.swapped = true ↔ ¬ input0.size < input1.size))) := by
  obtain ⟨hb, hsw, hi1⟩ := checkInputs_ok_inv input0 (some input1) ci hacc
  simp only [baseOperand] at hb hsw hi1
  have hswap : ci.swapped = true ↔ input0.size < input1.size := by
    rw [hsw]; simp
  refine ⟨hswap, ?_, ?_, ?_, ?_, ?_⟩
  · intro hlt
    rw [hb, hi1, if_pos hlt, if_pos hlt]
    exact ⟨rfl, rfl⟩
  · intro hlt
    rw [hb, hi1, if_neg hlt, if_neg hlt]
    exact ⟨rfl, rfl⟩
  · rw [hb]; split <;> omega
  · rw [hb]; split <;> omega
  · intro rt self output r h
    obtain ⟨ci2, _, _, _, _, _, _, hci2, -, -, h0, h1, hs, -⟩ :=
      Compute_ok_inv rt self input0 (some input1) output r h
    rw [hacc] at hci2
    cases Except.ok.inj hci2
    refine ⟨h0, h1, ?_, ?_⟩
    · intro hne
      rw [hs, adjustSwapped, if_neg hne]
      exact hswap
    · intro heq
      rw [hs, adjustSwapped, if_pos heq, ← hswap]
      cases ci.swapped <;> simp

/-- C9, amended, at a concrete input: `(4)` passed before `(1, 2, 2, 4)`. -/
theorem Compute_swapped_flag_witness :
    ((true = true ↔ (shapeOnly [4]).size < (shapeOnly [1, 2, 2, 4]).size)) ∧
    ∃ r : ComputeResult Unit,
      EltwiseKernel.Compute plainRuntime (EltwiseKernel.new 0 [] 0 1) (shapeOnly [4])
        (some (shapeOnly [1, 2, 2, 4])) (shapeOnly []) = Except.ok r ∧
      r.input0 = shapeOnly [1, 2, 2, 4] ∧ r.swapped = true := by
  have hw := Compute_swapped_flag (shapeOnly [4]) (shapeOnly [1, 2, 2, 4])
    { input0 := shapeOnly [1, 2, 2, 4], input1 := some (shapeOnly [4]), swapped := true } rfl
  refine ⟨hw.1, ?r, ?h, ?c1, ?c2⟩
  case h => exact rfl
  case c1 =>
    exact (hw.2.2.2.2.2 plainRuntime (EltwiseKernel.new 0 [] 0 1) (shapeOnly []) ?r rfl).1
  case c2 =>
    exact ((hw.2.2.2.2.2 plainRuntime (EltwiseKernel.new 0 [] 0 1) (shapeOnly []) ?r
      rfl).2.2.1 (by decide)).mpr (by decide)

/-- C10, evaluated at the failing input: on a first call with
`scalar_input_index_ = 0` and `input1` absent, the `swapped` flag is true, the
call compiles, and the build-option set does not contain `-DSWAPPED`. -/
theorem Compute_scalar_index_zero_omits_swapped_option :
    (EltwiseKernel.Compute plainRuntime (EltwiseKernel.new 0 [] 0 0)
        (shapeOnly [1, 2, 2, 4]) none (shapeOnly [])).map
      (fun r => (r.swapped, r.self.build_calls, r.launch.kernel.built_options)) =
    Except.ok (true, 1,
      ["-Deltwise=eltwise", "-DDATA_TYPE=float", "-DCMD_DATA_TYPE=float",
        "-DELTWISE_TYPE=0", "-DINPUT_TYPE=1"]) ∧
    "-DSWAPPED" ∉ ["-Deltwise=eltwise", "-DDATA_TYPE=float", "-DCMD_DATA_TYPE=float",
        "-DELTWISE_TYPE=0", "-DINPUT_TYPE=1"] :=
  ⟨rfl, by decide⟩

/-! ## Theorems: the interpolating path of resize -/

theorem loopUp_blocks {β : Type} (body : Int → (Int → β) → Int → β) (base L : Int)
    (hL : 0 ≤ L)
    (hframe : ∀ (i : Nat) (mem : Int → β) (p : Int),
      p < base + i * L ∨ base + (i + 1) * L ≤ p → body i mem p = mem p)
    (n : Nat) (mem : Int → β) :
    (∀ p : Int, p < base ∨ base + n * L ≤ p → loopUp n body mem p = mem p) ∧
    (∀ i : Nat, i < n → ∀ p : Int, base + i * L ≤ p → p < base + (i + 1) * L →
      loopUp n body mem p = body i (loopUp i body mem) p) := by
  induction n with
  | zero =>
    refine ⟨fun p _ => rfl, ?_⟩
    intro i hi
    omega
  | succ n ih =>
    obtain ⟨ihf, ihv⟩ := ih
    have hnL : (0 : Int) ≤ (n : Int) * L := by positivity
    refine ⟨?_, ?_⟩
    · intro p hp
      simp only [loopUp]
      rw [hframe n, ihf p]
      · rcases hp with hp | hp
        · exact Or.inl hp
        · right; push_cast at hp; nlinarith
      · rcases hp with hp | hp
        · left; nlinarith
        · right; push_cast at hp; linarith
    · intro i hi p hp1 hp2
      by_cases hin : i = n
      · subst hin
        rfl
      · have hlt : i < n := by omega
        have hle : ((i : Int) + 1) * L ≤ (n : Int) * L := by
          apply mul_le_mul_of_nonneg_right _ hL
          exact_mod_cast hlt
        simp only [loopUp]
        rw [hframe n _ p (Or.inl (by linarith))]
        exact ihv i hlt p hp1 hp2

theorem resizeX_spec (images : Int → ℚ) (channels : Int) (xs : Int → CachedInterpolation)
    (yl yu yop : Int) (ysl : ℚ) (x : Int) (out : Int → ℚ) (hch : 0 ≤ channels) :
    (∀ p : Int, p < yop + x * channels ∨ yop + x * channels + channels ≤ p →
      resizeX images channels xs yl yu yop ysl x out p = out p) ∧
    (∀ c : Nat, (c : Int) < channels →
      resizeX images channels xs yl yu yop ysl x out (yop + x * channels + c) =
        pixelValue images channels (xs x) yl yu ysl c) := by
  have hn : ((channels.toNat : Nat) : Int) = channels := Int.toNat_of_nonneg hch
  obtain ⟨hf, hv⟩ := loopUp_blocks
    (resizeC images (yl + (xs x).lower * channels) (yl + (xs x).upper * channels)
      (yu + (xs x).lower * channels) (yu + (xs x).upper * channels) (yop + x * channels)
      (xs x).lerp ysl) (yop + x * channels) 1 (by norm_num)
    (by
      intro i mem p hp
      simp only [resizeC]
      apply store_other
      omega)
    channels.toNat out
  refine ⟨?_, ?_⟩
  · intro p hp
    simp only [resizeX]
    apply hf
    rw [hn]
    omega
  · intro c hc
    simp only [resizeX]
    rw [hv c (by omega) _ (by omega) (by omega)]
    simp only [resizeC, store_same, pixelValue]

theorem resizeY_spec (images : Int → ℚ) (in_width out_width channels ibn obn : Int)
    (xs ys : Int → CachedInterpolation) (b y : Int) (out : Int → ℚ)
    (hch : 0 ≤ channels) (hw : 0 ≤ out_width) :
    (∀ p : Int, p < obn * b + y * out_width * channels ∨
        obn * b + y * out_width * channels + out_width * channels ≤ p →
      resizeY images in_width out_width channels ibn obn xs ys b y out p = out p) ∧
    (∀ x c : Nat, (x : Int) < out_width → (c : Int) < channels →
      resizeY images in_width out_width channels ibn obn xs ys b y out
          (obn * b + y * out_width * channels + x * channels + c) =
        pixelValue images channels (xs x) (ibn * b + (ys y).lower * in_width * channels)
          (ibn * b + (ys y).upper * in_width * channels) (ys y).lerp c) := by
  have hn : ((out_width.toNat : Nat) : Int) = out_width := Int.toNat_of_nonneg hw
  obtain ⟨hf, hv⟩ := loopUp_blocks
    (resizeX images channels xs (ibn * b + (ys y).lower * in_width * channels)
      (ibn * b + (ys y).upper * in_width * channels)
      (obn * b + y * out_width * channels) (ys y).lerp)
    (obn * b + y * out_width * channels) channels hch
    (by
      intro i mem p hp
      apply (resizeX_spec images channels xs _ _ _ _ i mem hch).1
      rcases hp with hp | hp
      · exact Or.inl hp
      · right; linarith)
    out_width.toNat out
  refine ⟨?_, ?_⟩
  · intro p hp
    simp only [resizeY]
    apply hf
    rw [hn]
    exact hp
  · intro x c hx hc
    simp only [resizeY]
    have hc0 : (0 : Int) ≤ c := by positivity
    rw [hv x (by omega) _ (by linarith) (by linarith)]
    exact (resizeX_spec images channels xs _ _ _ _ x _ hch).2 c hc

theorem resizeRows_spec (images : Int → ℚ) (in_width out_width channels ibn obn : Int)
    (xs ys : Int → CachedInterpolation) (b : Int) (n : Nat) (out : Int → ℚ)
    (hch : 0 ≤ channels) (hw : 0 ≤ out_width) :
    (∀ p : Int, p < obn * b ∨ obn * b + n * (out_width * channels) ≤ p →
      loopUp n (resizeY images in_width out_width channels ibn obn xs ys b) out p = out p) ∧
    (∀ y x c : Nat, y < n → (x : Int) < out_width → (c : Int) < channels →
      loopUp n (resizeY images in_width out_width channels ibn obn xs ys b) out
          (obn * b + y * (out_width * channels) + x * channels + c) =
        pixelValue images channels (xs x) (ibn * b + (ys y).lower * in_width * channels)
          (ibn * b + (ys y).upper * in_width * channels) (ys y).lerp c) := by
  have hL : (0 : Int) ≤ out_width * channels := mul_nonneg hw hch
  obtain ⟨hf, hv⟩ := loopUp_blocks
    (resizeY images in_width out_width channels ibn obn xs ys b)
    (obn * b) (out_width * channels) hL
    (by
      intro i mem p hp
      apply (resizeY_spec images in_width out_width channels ibn obn xs ys b i mem hch hw).1
      rcases hp with hp | hp
      · left; linarith
      · right; linarith)
    n out
  refine ⟨hf, ?_⟩
  intro y x c hy hx hc
  have hc0 : (0 : Int) ≤ c := by positivity
  have hx0 : (0 : Int) ≤ x := by positivity
  have hxc : (x : Int) * channels + c < out_width * channels := by
    have h1 : ((x : Int) + 1) * channels ≤ out_width * channels :=
      mul_le_mul_of_nonneg_right (by omega) hch
    linarith
  have hxc0 : (0 : Int) ≤ (x : Int) * channels := mul_nonneg hx0 hch
  rw [hv y hy _ (by linarith) (by linarith)]
  have hoff : obn * b + (y : Int) * (out_width * channels) + x * channels + c =
      obn * b + (y : Int) * out_width * channels + x * channels + c := by ring
  rw [hoff]
  exact (resizeY_spec images in_width out_width channels ibn obn xs ys b y _ hch hw).2 x c hx hc

/-- The element `ResizeImage` leaves at output position `(b, y, x, c)`. -/
theorem ResizeImage_apply (images : Int → ℚ)
    (batch_size in_height in_width out_height out_width channels : Int)
    (xs ys : Int → CachedInterpolation) (out : Int → ℚ) (b y x c : Nat)
    (hb : (b : Int) < batch_size) (hy : (y : Int) < out_height)
    (hx : (x : Int) < out_width) (hc : (c : Int) < channels) :
    ResizeImage images batch_size in_height in_width out_height out_width channels xs ys out
        ((((b : Int) * out_height + y) * out_width + x) * channels + c) =
      pixelValue images channels (xs x)
        (channels * in_height * in_width * b + (ys y).lower * in_width * channels)
        (channels * in_height * in_width * b + (ys y).upper * in_width * channels)
        (ys y).lerp c := by
  have hch : (0 : Int) ≤ channels := by omega
  have hw : (0 : Int) ≤ out_width := by omega
  have hh : (0 : Int) ≤ out_height := by omega
  have hn : ((out_height.toNat : Nat) : Int) = out_height := Int.toNat_of_nonneg hh
  have hL : (0 : Int) ≤ channels * out_height * out_width :=
    mul_nonneg (mul_nonneg hch hh) hw
  obtain ⟨-, hv⟩ := loopUp_blocks
    (fun (b : Int) (o : Int → ℚ) =>
      loopUp out_height.toNat
        (resizeY images in_width out_width channels (channels * in_height * in_width)
          (channels * out_height * out_width) xs ys b) o)
    0 (channels * out_height * out_width) hL
    (by
      intro i mem p hp
      apply (resizeRows_spec images in_width out_width channels _ _ xs ys i
        out_height.toNat mem hch hw).1
      rw [hn]
      rcases hp with hp | hp
      · left; linarith
      · right; linarith)
    batch_size.toNat out
  have hy0 : (0 : Int) ≤ y := by positivity
  have hx0 : (0 : Int) ≤ x := by positivity
  have hc0 : (0 : Int) ≤ c := by positivity
  have hwc : (0 : Int) ≤ out_width * channels := mul_nonneg hw hch
  have hxc : (x : Int) * channels + c < out_width * channels := by
    have h1 : ((x : Int) + 1) * channels ≤ out_width * channels :=
      mul_le_mul_of_nonneg_right (by omega) hch
    linarith
  have hxc0 : (0 : Int) ≤ (x : Int) * channels := mul_nonneg hx0 hch
  have hyxc : (y : Int) * (out_width * channels) + x * channels + c <
      out_height * (out_width * channels) := by
    have h1 : ((y : Int) + 1) * (out_width * channels) ≤ out_height * (out_width * channels) :=
      mul_le_mul_of_nonneg_right (by omega) hwc
    linarith
  have hy1 : (0 : Int) ≤ (y : Int) * (out_width * channels) := mul_nonneg hy0 hwc
  have hoff : (((b : Int) * out_height + y) * out_width + x) * channels + c =
      channels * out_height * out_width * b + y * (out_width * channels) + x * channels + c := by
    ring
  simp only [ResizeImage]
  rw [hoff, hv b (by omega) _ (by linarith) (by linarith)]
  exact (resizeRows_spec images in_width out_width channels _ _ xs ys b out_height.toNat _
    hch hw).2 y x c (by omega) hx hc

/-- The interpolating path of `ResizeBilinearFunctor`: when the target size is
positive and differs from the input size, the call returns the resized output
filled by `ResizeImage` with the two interpolation caches. -/
theorem ResizeBilinearFunctor_interpolated (self : ResizeBilinearFunctorBase)
    (input output : Tensor ℚ) (batch in_h in_w channels : Int)
    (hshape : input.shape = [batch, in_h, in_w, channels])
    (hpos : self.out_height_ > 0 ∧ self.out_width_ > 0)
    (hne : ¬ (self.out_height_ = in_h ∧ self.out_width_ = in_w)) :
    ResizeBilinearFunctor self input output =
      Except.ok
        { shape := [batch, self.out_height_, self.out_width_, channels],
          data := ResizeImage input.data batch in_h in_w self.out_height_ self.out_width_
            channels (axisWeights in_w self.out_width_ self.align_corners_)
            (axisWeights in_h self.out_height_ self.align_corners_) output.data } := by
  simp only [ResizeBilinearFunctor, Tensor.dim, hshape, Tensor.Resize, bind,
    Except.bind, pure, Except.pure, List.get?, if_pos hpos, if_neg hne, axisWeights]

/-- The element the interpolating path leaves at `(b, y, x, c)`. -/
theorem ResizeBilinearFunctor_at (self : ResizeBilinearFunctorBase)
    (input output : Tensor ℚ) (batch in_h in_w channels : Int)
    (b y x c : Nat)
    (hb : (b : Int) < batch) (hy : (y : Int) < self.out_height_)
    (hx : (x : Int) < self.out_width_) (hc : (c : Int) < channels) :
    ResizeImage input.data batch in_h in_w self.out_height_ self.out_width_
        channels (axisWeights in_w self.out_width_ self.align_corners_)
        (axisWeights in_h self.out_height_ self.align_corners_) output.data
        ((((b : Int) * self.out_height_ + y) * self.out_width_ + x) * channels + c) =
      bilinearBlend
        (input.at4 in_h in_w channels b
          (axisWeights in_h self.out_height_ self.align_corners_ y).lower
          (axisWeights in_w self.out_width_ self.align_corners_ x).lower c)
        (input.at4 in_h in_w channels b
          (axisWeights in_h self.out_height_ self.align_corners_ y).lower
          (axisWeights in_w self.out_width_ self.align_corners_ x).upper c)
        (input.at4 in_h in_w channels b
          (axisWeights in_h self.out_height_ self.align_corners_ y).upper
          (axisWeights in_w self.out_width_ self.align_corners_ x).lower c)
        (input.at4 in_h in_w channels b
          (axisWeights in_h self.out_height_ self.align_corners_ y).upper
          (axisWeights in_w self.out_width_ self.align_corners_ x).upper c)
        (axisWeights in_w self.out_width_ self.align_corners_ x).lerp
        (axisWeights in_h self.out_height_ self.align_corners_ y).lerp := by
  rw [ResizeImage_apply _ _ _ _ _ _ _ _ _ _ b y x c hb hy hx hc]
  simp only [pixelValue, ComputeLerp, bilinearBlend, Tensor.at4]
  congr 3 <;> congr 1 <;> ring_nf

/-- C11: for every input of shape `(batch, in_h, in_w, channels)` and positive
target `(out_h, out_w)` different from `(in_h, in_w)`, the call returns an
output of shape `(batch, out_h, out_w, channels)` and every element
`output[b, y, x, c]` equals `top + (bottom - top) * ys[y].lerp` with
`top = tl + (tr - tl) * xs[x].lerp`, `bottom = bl + (br - bl) * xs[x].lerp`, where
`tl, tr, bl, br` are the input elements of batch `b` and channel `c` at rows
`ys[y].lower / ys[y].upper` and columns `xs[x].lower / xs[x].upper`, and `xs`, `ys`
are the caches computed by `ComputeInterpolationWeights` for the two axes. -/
theorem ResizeBilinearFunctor_pixel_formula (self : ResizeBilinearFunctorBase)
    (input output : Tensor ℚ) (batch in_h in_w channels : Int)
    (hshape : input.shape = [batch, in_h, in_w, channels])
    (hpos : self.out_height_ > 0 ∧ self.out_width_ > 0)
    (hne : ¬ (self.out_height_ = in_h ∧ self.out_width_ = in_w)) :
    ∃ out : Tensor ℚ, ResizeBilinearFunctor self input output = Except.ok out ∧
      out.shape = [batch, self.out_height_, self.out_width_, channels] ∧
      ∀ b y x c : Nat, (b : Int) < batch → (y : Int) < self.out_height_ →
        (x : Int) < self.out_width_ → (c : Int) < channels →
        out.at4 self.out_height_ self.out_width_ channels b y x c =
          bilinearBlend
            (input.at4 in_h in_w channels b
              (axisWeights in_h self.out_height_ self.align_corners_ y).lower
              (axisWeights in_w self.out_width_ self.align_corners_ x).lower c)
            (input.at4 in_h in_w channels b
              (axisWeights in_h self.out_height_ self.align_corners_ y).lower
              (axisWeights in_w self.out_width_ self.align_corners_ x).upper c)
            (input.at4 in_h in_w channels b
              (axisWeights in_h self.out_height_ self.align_corners_ y).upper
              (axisWeights in_w self.out_width_ self.align_corners_ x).lower c)
            (input.at4 in_h in_w channels b
              (axisWeights in_h self.out_height_ self.align_corners_ y).upper
              (axisWeights in_w self.out_width_ self.align_corners_ x).upper c)
            (axisWeights in_w self.out_width_ self.align_corners_ x).lerp
            (axisWeights in_h self.out_height_ self.align_corners_ y).lerp := by
  refine ⟨_, ResizeBilinearFunctor_interpolated self input output batch in_h in_w channels
    hshape hpos hne, rfl, ?_⟩
  intro b y x c hb hy hx hc
  exact ResizeBilinearFunctor_at self input output batch in_h in_w channels b y x c hb hy hx hc

theorem axisWeights_entry (in_size out_size : Int) (align_corners : Bool) (i : Int)
    (hi : 0 ≤ i ∧ i < out_size) :
    axisWeights in_size out_size align_corners i =
      { lower := truncToIndex ((i : ℚ) * CalculateResizeScale in_size out_size align_corners)
        upper := min
          (truncToIndex ((i : ℚ) * CalculateResizeScale in_size out_size align_corners) + 1)
          (in_size - 1)
        lerp := (i : ℚ) * CalculateResizeScale in_size out_size align_corners -
          (truncToIndex ((i : ℚ) * CalculateResizeScale in_size out_size align_corners) : ℚ) } :=
  ComputeInterpolationWeights_entry out_size in_size _ zeroInterpolation i hi

theorem truncToIndex_intCast (z : Int) : truncToIndex (z : ℚ) = z := by
  unfold truncToIndex
  split
  · exact Int.floor_intCast z
  · exact Int.ceil_intCast z

/-- Entry `i` of an axis cache when `i * scale` is the integer `z`. -/
theorem axisWeights_entry_of_int (in_size out_size : Int) (align_corners : Bool) (i z : Int)
    (hi : 0 ≤ i ∧ i < out_size)
    (hz : (i : ℚ) * CalculateResizeScale in_size out_size align_corners = (z : ℚ)) :
    axisWeights in_size out_size align_corners i =
      { lower := z, upper := min (z + 1) (in_size - 1), lerp := 0 } := by
  rw [axisWeights_entry _ _ _ _ hi, hz, truncToIndex_intCast]
  simp

theorem axisWeights_bounds (in_size out_size : Int) (align_corners : Bool) (i : Int)
    (hin : 1 ≤ in_size) (hout : 1 ≤ out_size) (hi : 0 ≤ i ∧ i < out_size) :
    0 ≤ (axisWeights in_size out_size align_corners i).lerp ∧
    (axisWeights in_size out_size align_corners i).lerp < 1 ∧
    0 ≤ (axisWeights in_size out_size align_corners i).lower ∧
    (axisWeights in_size out_size align_corners i).lower ≤
      (axisWeights in_size out_size align_corners i).upper ∧
    (axisWeights in_size out_size align_corners i).upper ≤ in_size - 1 := by
  rw [axisWeights_entry _ _ _ _ hi]
  have hs := CalculateResizeScale_nonneg in_size out_size align_corners hin hout
  have hlt := CalculateResizeScale_lt in_size out_size align_corners hin i hi
  have hiq : (0 : ℚ) ≤ (i : ℚ) := by exact_mod_cast hi.1
  have hx : (0 : ℚ) ≤ (i : ℚ) * CalculateResizeScale in_size out_size align_corners :=
    mul_nonneg hiq hs
  have htr : truncToIndex ((i : ℚ) * CalculateResizeScale in_size out_size align_corners) =
      ⌊(i : ℚ) * CalculateResizeScale in_size out_size align_corners⌋ := by
    simp [truncToIndex, hx]
  have hfl0 : 0 ≤ ⌊(i : ℚ) * CalculateResizeScale in_size out_size align_corners⌋ :=
    Int.floor_nonneg.mpr hx
  have hfl1 : ⌊(i : ℚ) * CalculateResizeScale in_size out_size align_corners⌋ < in_size :=
    Int.floor_lt.mpr hlt
  simp only [htr]
  refine ⟨?_, ?_, hfl0, ?_, ?_⟩
  · exact sub_nonneg.mpr (Int.floor_le _)
  · have := Int.lt_floor_add_one ((i : ℚ) * CalculateResizeScale in_size out_size align_corners)
    linarith
  · exact le_min (by omega) (by omega)
  · exact min_le_right _ _

theorem bilinearBlend_zero (tl tr bl br : ℚ) : bilinearBlend tl tr bl br 0 0 = tl := by
  simp [bilinearBlend]

/-- Without `align_corners`, when `in_size = s * out_size`, entry `i` has
`lower = s * i` and `lerp = 0`. -/
theorem axisWeights_integer_factor (out_size s : Int) (i : Int)
    (hout : 1 ≤ out_size) (hi : 0 ≤ i ∧ i < out_size) :
    axisWeights (s * out_size) out_size false i =
      { lower := s * i, upper := min (s * i + 1) (s * out_size - 1), lerp := 0 } := by
  apply axisWeights_entry_of_int _ _ _ _ _ hi
  have ho : (out_size : ℚ) ≠ 0 := by
    have : (0 : ℚ) < (out_size : ℚ) := by exact_mod_cast (by omega : (0 : Int) < out_size)
    exact ne_of_gt this
  simp only [CalculateResizeScale, Bool.false_and, Bool.false_eq_true, if_false]
  push_cast
  field_simp
  ring

/-- With `align_corners` and `out_size > 1`, entry `0` has `lower = 0`, and the
last entry has `lower = in_size - 1`, both with `lerp = 0`. -/
theorem axisWeights_align_corners (in_size out_size : Int) (hout : 1 < out_size) :
    axisWeights in_size out_size true 0 =
      { lower := 0, upper := min (0 + 1) (in_size - 1), lerp := 0 } ∧
    axisWeights in_size out_size true (out_size - 1) =
      { lower := in_size - 1, upper := min (in_size - 1 + 1) (in_size - 1), lerp := 0 } := by
  constructor
  · apply axisWeights_entry_of_int _ _ _ _ _ (by omega)
    simp
  · apply axisWeights_entry_of_int _ _ _ _ _ (by omega)
    have ho : ((out_size - 1 : Int) : ℚ) ≠ 0 := by
      have : (0 : ℚ) < ((out_size - 1 : Int) : ℚ) := by
        exact_mod_cast (by omega : (0 : Int) < out_size - 1)
      exact ne_of_gt this
    have ho2 : (out_size : ℚ) - 1 ≠ 0 := by
      push_cast at ho
      exact ho
    have hc : (true && decide (out_size > 1)) = true := by simp [hout]
    simp only [CalculateResizeScale, hc, if_true]
    push_cast
    field_simp

/-- C11, at a concrete input: a `(1, 2, 2, 1)` image resized to `(1, 1)`. -/
theorem ResizeBilinearFunctor_pixel_formula_witness :
    ∃ out : Tensor ℚ,
      ResizeBilinearFunctor { align_corners_ := false, out_height_ := 1, out_width_ := 1 }
        ⟨[1, 2, 2, 1], fun i => (i : ℚ) + 5⟩ ⟨[], fun _ => 0⟩ = Except.ok out ∧
      out.shape = [1, 1, 1, 1] ∧ out.at4 1 1 1 0 0 0 0 = 5 := by
  obtain ⟨out, h1, h2, h3⟩ :=
    ResizeBilinearFunctor_pixel_formula
      { align_corners_ := false, out_height_ := 1, out_width_ := 1 }
      ⟨[1, 2, 2, 1], fun i => (i : ℚ) + 5⟩ ⟨[], fun _ => 0⟩ 1 2 2 1 rfl (by decide) (by decide)
  refine ⟨out, h1, h2, ?_⟩
  have h4 := h3 0 0 0 0 (by decide) (by decide) (by decide) (by decide)
  have hw : axisWeights 2 1 false 0 = { lower := 0, upper := 1, lerp := 0 } := by
    have := axisWeights_integer_factor 1 2 0 (by decide) (by decide)
    simpa using this
  simp only [Nat.cast_zero] at h4
  rw [h4, hw, bilinearBlend_zero]
  norm_num [Tensor.at4]

/-- C18: with `align_corners`, `out_h > 1`, `out_w > 1` and a target different from
the input size, the last output coordinate of each axis has `lower` equal to
the last input index and `lerp = 0`, and the four corner output pixels equal
the four corner input pixels, for every batch and channel. -/
theorem ResizeBilinearFunctor_align_corners (self : ResizeBilinearFunctorBase)
    (input output : Tensor ℚ) (batch in_h in_w channels : Int)
    (hshape : input.shape = [batch, in_h, in_w, channels])
    (halign : self.align_corners_ = true)
    (hoh : 1 < self.out_height_) (how : 1 < self.out_width_)
    (hne : ¬ (self.out_height_ = in_h ∧ self.out_width_ = in_w)) :
    ((axisWeights in_h self.out_height_ true (self.out_height_ - 1)).lower = in_h - 1 ∧
      (axisWeights in_h self.out_height_ true (self.out_height_ - 1)).lerp = 0) ∧
    ((axisWeights in_w self.out_width_ true (self.out_width_ - 1)).lower = in_w - 1 ∧
      (axisWeights in_w self.out_width_ true (self.out_width_ - 1)).lerp = 0) ∧
    ∃ out : Tensor ℚ, ResizeBilinearFunctor self input output = Except.ok out ∧
      out.shape = [batch, self.out_height_, self.out_width_, channels] ∧
      ∀ b c : Nat, (b : Int) < batch → (c : Int) < channels →
        out.at4 self.out_height_ self.out_width_ channels b 0 0 c =
          input.at4 in_h in_w channels b 0 0 c ∧
        out.at4 self.out_height_ self.out_width_ channels b 0 (self.out_width_ - 1) c =
          input.at4 in_h in_w channels b 0 (in_w - 1) c ∧
        out.at4 self.out_height_ self.out_width_ channels b (self.out_height_ - 1) 0 c =
          input.at4 in_h in_w channels b (in_h - 1) 0 c ∧
        out.at4 self.out_height_ self.out_width_ channels b (self.out_height_ - 1)
            (self.out_width_ - 1) c =
          input.at4 in_h in_w channels b (in_h - 1) (in_w - 1) c := by
  obtain ⟨hy0, hy1⟩ := axisWeights_align_corners in_h self.out_height_ hoh
  obtain ⟨hx0, hx1⟩ := axisWeights_align_corners in_w self.out_width_ how
  refine ⟨?_, ?_, _, ResizeBilinearFunctor_interpolated self input output batch in_h in_w
    channels hshape ⟨by omega, by omega⟩ hne, rfl, ?_⟩
  · rw [hy1]; exact ⟨rfl, rfl⟩
  · rw [hx1]; exact ⟨rfl, rfl⟩
  · intro b c hb hc
    have key : ∀ (y x : Nat) (ly lx uy ux : Int), (y : Int) < self.out_height_ →
        (x : Int) < self.out_width_ →
        axisWeights in_h self.out_height_ true y = { lower := ly, upper := uy, lerp := 0 } →
        axisWeights in_w self.out_width_ true x = { lower := lx, upper := ux, lerp := 0 } →
        ResizeImage input.data batch in_h in_w self.out_height_ self.out_width_
          channels (axisWeights in_w self.out_width_ self.align_corners_)
          (axisWeights in_h self.out_height_ self.align_corners_) output.data
          ((((b : Int) * self.out_height_ + y) * self.out_width_ + x) * channels + c) =
        input.at4 in_h in_w channels b ly lx c := by
      intro y x ly lx uy ux hy hx hwy hwx
      have h := ResizeBilinearFunctor_at self input output batch in_h in_w channels b y x c
        hb hy hx hc
      rw [halign, hwy, hwx, bilinearBlend_zero] at h
      rw [halign]
      exact h
    have hlasty : (((self.out_height_ - 1).toNat : Nat) : Int) = self.out_height_ - 1 :=
      Int.toNat_of_nonneg (by omega)
    have hlastx : (((self.out_width_ - 1).toNat : Nat) : Int) = self.out_width_ - 1 :=
      Int.toNat_of_nonneg (by omega)
    refine ⟨?_, ?_, ?_, ?_⟩
    · have h := key 0 0 _ _ _ _ (by omega) (by omega) (by simpa using hy0) (by simpa using hx0)
      simpa [Tensor.at4] using h
    · have h := key 0 (self.out_width_ - 1).toNat _ _ _ _ (by omega) (by omega)
        (by simpa using hy0) (by rw [hlastx]; exact hx1)
      rw [hlastx] at h
      simpa [Tensor.at4] using h
    · have h := key (self.out_height_ - 1).toNat 0 _ _ _ _ (by omega) (by omega)
        (by rw [hlasty]; exact hy1) (by simpa using hx0)
      rw [hlasty] at h
      simpa [Tensor.at4] using h
    · have h := key (self.out_height_ - 1).toNat (self.out_width_ - 1).toNat _ _ _ _
        (by omega) (by omega) (by rw [hlasty]; exact hy1) (by rw [hlastx]; exact hx1)
      rw [hlasty, hlastx] at h
      simpa [Tensor.at4] using h

/-- C18, at a concrete input: a `(1, 3, 3, 1)` image holding `1 .. 9` resized to
`(2, 2)` keeps the corners `1, 3, 7, 9`. -/
theorem ResizeBilinearFunctor_align_corners_witness :
    ∃ out : Tensor ℚ,
      ResizeBilinearFunctor { align_corners_ := true, out_height_ := 2, out_width_ := 2 }
        ⟨[1, 3, 3, 1], fun i => (i : ℚ) + 1⟩ ⟨[], fun _ => 0⟩ = Except.ok out ∧
      out.shape = [1, 2, 2, 1] ∧
      out.at4 2 2 1 0 0 0 0 = 1 ∧ out.at4 2 2 1 0 0 1 0 = 3 ∧
      out.at4 2 2 1 0 1 0 0 = 7 ∧ out.at4 2 2 1 0 1 1 0 = 9 := by
  obtain ⟨-, -, out, h1, h2, h3⟩ :=
    ResizeBilinearFunctor_align_corners
      { align_corners_ := true, out_height_ := 2, out_width_ := 2 }
      ⟨[1, 3, 3, 1], fun i => (i : ℚ) + 1⟩ ⟨[], fun _ => 0⟩ 1 3 3 1 rfl rfl
      (by decide) (by decide) (by decide)
  obtain ⟨c1, c2, c3, c4⟩ := h3 0 0 (by decide) (by decide)
  simp only [Nat.cast_zero] at c1 c2 c3 c4
  norm_num at c2 c3 c4
  refine ⟨out, h1, h2, ?_, ?_, ?_, ?_⟩
  · rw [c1]; norm_num [Tensor.at4]
  · rw [c2]; norm_num [Tensor.at4]
  · rw [c3]; norm_num [Tensor.at4]
  · rw [c4]; norm_num [Tensor.at4]

/-! ## Theorems: convexity of the blend -/

theorem ComputeLerp_between (tl tr bl br xl yl lo hi : ℚ)
    (hx : 0 ≤ xl ∧ xl ≤ 1) (hy : 0 ≤ yl ∧ yl ≤ 1)
    (h1 : lo ≤ tl ∧ tl ≤ hi) (h2 : lo ≤ tr ∧ tr ≤ hi)
    (h3 : lo ≤ bl ∧ bl ≤ hi) (h4 : lo ≤ br ∧ br ≤ hi) :
    lo ≤ ComputeLerp tl tr bl br xl yl ∧ ComputeLerp tl tr bl br xl yl ≤ hi := by
  have e : ComputeLerp tl tr bl br xl yl =
      (tl * (1 - xl) + tr * xl) * (1 - yl) + (bl * (1 - xl) + br * xl) * yl := by
    simp only [ComputeLerp]; ring
  have hx1 : 0 ≤ 1 - xl := by linarith [hx.2]
  have hy1 : 0 ≤ 1 - yl := by linarith [hy.2]
  have top_lo : lo ≤ tl * (1 - xl) + tr * xl := by
    have a := mul_le_mul_of_nonneg_right h1.1 hx1
    have b := mul_le_mul_of_nonneg_right h2.1 hx.1
    linarith
  have top_hi : tl * (1 - xl) + tr * xl ≤ hi := by
    have a := mul_le_mul_of_nonneg_right h1.2 hx1
    have b := mul_le_mul_of_nonneg_right h2.2 hx.1
    linarith
  have bot_lo : lo ≤ bl * (1 - xl) + br * xl := by
    have a := mul_le_mul_of_nonneg_right h3.1 hx1
    have b := mul_le_mul_of_nonneg_right h4.1 hx.1
    linarith
  have bot_hi : bl * (1 - xl) + br * xl ≤ hi := by
    have a := mul_le_mul_of_nonneg_right h3.2 hx1
    have b := mul_le_mul_of_nonneg_right h4.2 hx.1
    linarith
  rw [e]
  constructor
  · have a := mul_le_mul_of_nonneg_right top_lo hy1
    have b := mul_le_mul_of_nonneg_right bot_lo hy.1
    linarith
  · have a := mul_le_mul_of_nonneg_right top_hi hy1
    have b := mul_le_mul_of_nonneg_right bot_hi hy.1
    linarith

/-- Every element the interpolating path writes for batch `b` and channel `c`
lies between any two bounds of the input elements of that batch and channel. -/
theorem ResizeImage_between (self : ResizeBilinearFunctorBase)
    (input output : Tensor ℚ) (batch in_h in_w channels : Int) (lo hi : ℚ)
    (b y x c : Nat)
    (hih : 1 ≤ in_h) (hiw : 1 ≤ in_w)
    (hb : (b : Int) < batch) (hy : (y : Int) < self.out_height_)
    (hx : (x : Int) < self.out_width_) (hc : (c : Int) < channels)
    (hin : ∀ y2 x2 : Int, 0 ≤ y2 → y2 < in_h → 0 ≤ x2 → x2 < in_w →
      lo ≤ input.at4 in_h in_w channels b y2 x2 c ∧
      input.at4 in_h in_w channels b y2 x2 c ≤ hi) :
    lo ≤ ResizeImage input.data batch in_h in_w self.out_height_ self.out_width_
        channels (axisWeights in_w self.out_width_ self.align_corners_)
        (axisWeights in_h self.out_height_ self.align_corners_) output.data
        ((((b : Int) * self.out_height_ + y) * self.out_width_ + x) * channels + c) ∧
    ResizeImage input.data batch in_h in_w self.out_height_ self.out_width_
        channels (axisWeights in_w self.out_width_ self.align_corners_)
        (axisWeights in_h self.out_height_ self.align_corners_) output.data
        ((((b : Int) * self.out_height_ + y) * self.out_width_ + x) * channels + c) ≤ hi := by
  obtain ⟨yl0, yl1, ylo, ylu, yup⟩ :=
    axisWeights_bounds in_h self.out_height_ self.align_corners_ y hih (by omega)
      ⟨by positivity, hy⟩
  obtain ⟨xl0, xl1, xlo, xlu, xup⟩ :=
    axisWeights_bounds in_w self.out_width_ self.align_corners_ x hiw (by omega)
      ⟨by positivity, hx⟩
  rw [ResizeBilinearFunctor_at self input output batch in_h in_w channels b y x c hb hy hx hc]
  have e : ∀ tl tr bl br xl yl : ℚ, bilinearBlend tl tr bl br xl yl =
      ComputeLerp tl tr bl br xl yl := fun _ _ _ _ _ _ => rfl
  rw [e]
  apply ComputeLerp_between _ _ _ _ _ _ lo hi ⟨xl0, le_of_lt xl1⟩ ⟨yl0, le_of_lt yl1⟩
  · exact hin _ _ ylo (by omega) xlo (by omega)
  · exact hin _ _ ylo (by omega) (by omega) (by omega)
  · exact hin _ _ (by omega) (by omega) xlo (by omega)
  · exact hin _ _ (by omega) (by omega) (by omega) (by omega)

/-- C17: for `0 <= x_lerp <= 1` and `0 <= y_lerp <= 1`, `ComputeLerp` returns a
value between the minimum and the maximum of its four corner values; on the
interpolating path, every output element of batch `b` and channel `c` lies
between any two bounds (so between the minimum and the maximum) of the input
elements of that batch and channel, and a constant image is resized to the
same constant. -/
theorem ComputeLerp_convex_combination (tl tr bl br x_lerp y_lerp : ℚ)
    (self : ResizeBilinearFunctorBase) (input output : Tensor ℚ)
    (batch in_h in_w channels : Int)
    (hx : 0 ≤ x_lerp ∧ x_lerp ≤ 1) (hy : 0 ≤ y_lerp ∧ y_lerp ≤ 1)
    (hshape : input.shape = [batch, in_h, in_w, channels])
    (hih : 1 ≤ in_h) (hiw : 1 ≤ in_w)
    (hpos : self.out_height_ > 0 ∧ self.out_width_ > 0)
    (hne : ¬ (self.out_height_ = in_h ∧ self.out_width_ = in_w)) :
    (min (min tl tr) (min bl br) ≤ ComputeLerp tl tr bl br x_lerp y_lerp ∧
      ComputeLerp tl tr bl br x_lerp y_lerp ≤ max (max tl tr) (max bl br)) ∧
    ∃ out : Tensor ℚ, ResizeBilinearFunctor self input output = Except.ok out ∧
      (∀ (b c : Nat) (lo hi : ℚ), (b : Int) < batch → (c : Int) < channels →
        (∀ y2 x2 : Int, 0 ≤ y2 → y2 < in_h → 0 ≤ x2 → x2 < in_w →
          lo ≤ input.at4 in_h in_w channels b y2 x2 c ∧
          input.at4 in_h in_w channels b y2 x2 c ≤ hi) →
        ∀ y x : Nat, (y : Int) < self.out_height_ → (x : Int) < self.out_width_ →
          lo ≤ out.at4 self.out_height_ self.out_width_ channels b y x c ∧
          out.at4 self.out_height_ self.out_width_ channels b y x c ≤ hi) ∧
      (∀ k : ℚ,
        (∀ (b c : Nat) (y2 x2 : Int), (b : Int) < batch → (c : Int) < channels →
          0 ≤ y2 → y2 < in_h → 0 ≤ x2 → x2 < in_w →
          input.at4 in_h in_w channels b y2 x2 c = k) →
        ∀ b y x c : Nat, (b : Int) < batch → (y : Int) < self.out_height_ →
          (x : Int) < self.out_width_ → (c : Int) < channels →
          out.at4 self.out_height_ self.out_width_ channels b y x c = k) := by
  refine ⟨?_, _, ResizeBilinearFunctor_interpolated self input output batch in_h in_w
    channels hshape hpos hne, ?_, ?_⟩
  · apply ComputeLerp_between _ _ _ _ _ _ _ _ hx hy
    · exact ⟨le_trans (min_le_left _ _) (min_le_left _ _),
        le_trans (le_max_left _ _) (le_max_left _ _)⟩
    · exact ⟨le_trans (min_le_left _ _) (min_le_right _ _),
        le_trans (le_max_right _ _) (le_max_left _ _)⟩
    · exact ⟨le_trans (min_le_right _ _) (min_le_left _ _),
        le_trans (le_max_left _ _) (le_max_right _ _)⟩
    · exact ⟨le_trans (min_le_right _ _) (min_le_right _ _),
        le_trans (le_max_right _ _) (le_max_right _ _)⟩
  · intro b c lo hi hb hc hin y x hy2 hx2
    exact ResizeImage_between self input output batch in_h in_w channels lo hi b y x c
      hih hiw hb hy2 hx2 hc hin
  · intro k hk b y x c hb hy2 hx2 hc
    have h := ResizeImage_between self input output batch in_h in_w channels k k b y x c
      hih hiw hb hy2 hx2 hc
      (fun y2 x2 h1 h2 h3 h4 => by rw [hk b c y2 x2 hb hc h1 h2 h3 h4]; exact ⟨le_rfl, le_rfl⟩)
    exact le_antisymm h.2 h.1

/-- C17, at a concrete input: the blend of `1, 2, 3, 4` at `(1/2, 1/2)`, and a
constant `(1, 2, 2, 1)` image resized to `(3, 3)`. -/
theorem ComputeLerp_convex_combination_witness :
    (min (min (1 : ℚ) 2) (min 3 4) ≤ ComputeLerp 1 2 3 4 (1 / 2) (1 / 2) ∧
      ComputeLerp 1 2 3 4 (1 / 2) (1 / 2) ≤ max (max (1 : ℚ) 2) (max 3 4)) ∧
    ∃ out : Tensor ℚ,
      ResizeBilinearFunctor { align_corners_ := false, out_height_ := 3, out_width_ := 3 }
        ⟨[1, 2, 2, 1], fun _ => 5⟩ ⟨[], fun _ => 0⟩ = Except.ok out ∧
      out.at4 3 3 1 0 1 1 0 = 5 := by
  obtain ⟨h1, out, h2, -, h4⟩ :=
    ComputeLerp_convex_combination 1 2 3 4 (1 / 2) (1 / 2)
      { align_corners_ := false, out_height_ := 3, out_width_ := 3 }
      ⟨[1, 2, 2, 1], fun _ => 5⟩ ⟨[], fun _ => 0⟩ 1 2 2 1
      (by norm_num) (by norm_num) rfl (by decide) (by decide) (by decide) (by decide)
  refine ⟨h1, out, h2, ?_⟩
  have h5 := h4 5 (fun _ _ _ _ _ _ _ _ _ _ => rfl) 0 1 1 0 (by decide) (by decide)
    (by decide) (by decide)
  simpa using h5

/-! ## Theorems: access logs of resize -/

theorem loopUp_proj {σ τ : Type} (proj : τ → σ) (bodyT : Int → τ → τ) (body : Int → σ → σ)
    (h : ∀ (i : Int) (t : τ), proj (bodyT i t) = body i (proj t)) (n : Nat) (t : τ) :
    proj (loopUp n bodyT t) = loopUp n body (proj t) := by
  induction n with
  | zero => rfl
  | succ n ih => simp only [loopUp, h, ih]

theorem loopDown_proj {σ τ : Type} (proj : τ → σ) (bodyT : Int → τ → τ) (body : Int → σ → σ)
    (h : ∀ (i : Int) (t : τ), proj (bodyT i t) = body i (proj t)) (n : Nat) (t : τ) :
    proj (loopDown n bodyT t) = loopDown n body (proj t) := by
  induction n generalizing t with
  | zero => rfl
  | succ n ih => simp only [loopDown, ih, h]

theorem loopUp_induct {σ : Type} (P : σ → Prop) (body : Int → σ → σ) (n : Nat)
    (h : ∀ i : Nat, i < n → ∀ s, P s → P (body i s)) (s : σ) (hs : P s) :
    P (loopUp n body s) := by
  induction n with
  | zero => exact hs
  | succ n ih =>
    simp only [loopUp]
    exact h n (Nat.lt_succ_self n) _ (ih (fun i hi => h i (Nat.lt_succ_of_lt hi)))

theorem loopDown_induct {σ : Type} (P : σ → Prop) (body : Int → σ → σ) (n : Nat)
    (h : ∀ i : Nat, i < n → ∀ s, P s → P (body i s)) (s : σ) (hs : P s) :
    P (loopDown n body s) := by
  induction n generalizing s with
  | zero => exact hs
  | succ n ih =>
    simp only [loopDown]
    exact ih (fun i hi => h i (Nat.lt_succ_of_lt hi)) _ (h n (Nat.lt_succ_self n) s hs)

theorem loopUp_log_blocks {τ : Type} (log : τ → List Int) (body : Int → τ → τ) (base : Int)
    (L : Nat)
    (h : ∀ (i : Nat) (t : τ), log (body i t) =
      log t ++ (List.range L).map (fun (k : Nat) => base + (i : Int) * (L : Int) + (k : Int)))
    (n : Nat) (t : τ) :
    log (loopUp n body t) =
      log t ++ (List.range (n * L)).map (fun (k : Nat) => base + (k : Int)) := by
  induction n with
  | zero => simp [loopUp]
  | succ n ih =>
    simp only [loopUp]
    rw [h n, ih, Nat.succ_mul, List.range_add, List.map_append, List.map_map,
      List.append_assoc]
    congr 2
    apply List.map_congr_left
    intro k _
    simp only [Function.comp]
    push_cast
    ring

theorem resizeXTraced_output (images : Int → ℚ) (channels : Int)
    (xs : Int → CachedInterpolation) (yl yu yop : Int) (ysl : ℚ) (x : Int) (t : ResizeTrace) :
    (resizeXTraced images channels xs yl yu yop ysl x t).output =
      resizeX images channels xs yl yu yop ysl x t.output := by
  simp only [resizeXTraced, resizeX]
  exact loopUp_proj ResizeTrace.output _ _ (fun _ _ => rfl) _ _

theorem resizeYTraced_output (images : Int → ℚ) (in_width out_width channels ibn obn : Int)
    (xs ys : Int → CachedInterpolation) (b y : Int) (t : ResizeTrace) :
    (resizeYTraced images in_width out_width channels ibn obn xs ys b y t).output =
      resizeY images in_width out_width channels ibn obn xs ys b y t.output := by
  simp only [resizeYTraced, resizeY]
  exact loopUp_proj ResizeTrace.output _ _
    (fun i t => resizeXTraced_output images channels xs _ _ _ _ i t) _ _

/-- The traced `ResizeImage` computes the output of `ResizeImage`. -/
theorem ResizeImageTraced_output (images : Int → ℚ)
    (batch_size in_height in_width out_height out_width channels : Int)
    (xs ys : Int → CachedInterpolation) (t : ResizeTrace) :
    (ResizeImageTraced images batch_size in_height in_width out_height out_width channels
      xs ys t).output =
      ResizeImage images batch_size in_height in_width out_height out_width channels
        xs ys t.output := by
  simp only [ResizeImageTraced, ResizeImage]
  apply loopUp_proj ResizeTrace.output
  intro b t2
  exact loopUp_proj ResizeTrace.output _ _
    (fun i t3 => resizeYTraced_output images in_width out_width channels _ _ xs ys b i t3) _ _

/-- The traced `ComputeInterpolationWeights` computes the cache of
`ComputeInterpolationWeights`. -/
theorem ComputeInterpolationWeightsTraced_cache (out_size in_size : Int) (scale : ℚ)
    (interpolation : Int → CachedInterpolation) :
    (ComputeInterpolationWeightsTraced out_size in_size scale interpolation).cache =
      ComputeInterpolationWeights out_size in_size scale interpolation := by
  simp only [ComputeInterpolationWeightsTraced, ComputeInterpolationWeights]
  exact loopDown_proj InterpolationTrace.cache _ _ (fun _ _ => rfl) _ _

/-- The entries assigned by `ComputeInterpolationWeights` are `0 .. out_size`. -/
theorem ComputeInterpolationWeightsTraced_writes (out_size in_size : Int) (scale : ℚ)
    (interpolation : Int → CachedInterpolation) (hout : 0 ≤ out_size) :
    ∀ j ∈ (ComputeInterpolationWeightsTraced out_size in_size scale interpolation).writes,
      0 ≤ j ∧ j ≤ out_size := by
  unfold ComputeInterpolationWeightsTraced
  apply loopDown_induct (fun t : InterpolationTrace => ∀ j ∈ t.writes, 0 ≤ j ∧ j ≤ out_size)
  · intro i hi t ht j hj
    simp only [interpolationStepTraced, List.mem_append, List.mem_cons, List.mem_singleton,
      List.not_mem_nil, or_false, or_self] at hj
    rcases hj with hj | hj
    · exact ht j hj
    · subst hj
      omega
  · intro j hj
    simp only [List.mem_cons, List.mem_singleton, List.not_mem_nil, or_false, or_self] at hj
    subst hj
    exact ⟨hout, le_rfl⟩

theorem resizeXTraced_writes (images : Int → ℚ) (channels : Int)
    (xs : Int → CachedInterpolation) (yl yu yop : Int) (ysl : ℚ) (x : Int) (t : ResizeTrace) :
    (resizeXTraced images channels xs yl yu yop ysl x t).writes =
      t.writes ++ (List.range channels.toNat).map
        (fun (k : Nat) => yop + x * channels + (k : Int)) := by
  simp only [resizeXTraced]
  have h := loopUp_log_blocks ResizeTrace.writes
    (resizeCTraced images (yl + (xs x).lower * channels) (yl + (xs x).upper * channels)
      (yu + (xs x).lower * channels) (yu + (xs x).upper * channels) (yop + x * channels)
      (xs x).lerp ysl) (yop + x * channels) 1
    (by
      intro i t2
      simp [resizeCTraced, List.range_succ])
    channels.toNat t
  simpa using h

theorem resizeYTraced_writes (images : Int → ℚ) (in_width out_width channels ibn obn : Int)
    (xs ys : Int → CachedInterpolation) (b y : Int) (t : ResizeTrace) (hch : 0 ≤ channels) :
    (resizeYTraced images in_width out_width channels ibn obn xs ys b y t).writes =
      t.writes ++ (List.range (out_width.toNat * channels.toNat)).map
        (fun (k : Nat) => obn * b + y * out_width * channels + (k : Int)) := by
  simp only [resizeYTraced]
  have hn : ((channels.toNat : Nat) : Int) = channels := Int.toNat_of_nonneg hch
  exact loopUp_log_blocks ResizeTrace.writes _ (obn * b + y * out_width * channels)
    channels.toNat
    (by
      intro i t2
      rw [resizeXTraced_writes, hn])
    out_width.toNat t

theorem ResizeImageTraced_writes (images : Int → ℚ)
    (batch_size in_height in_width out_height out_width channels : Int)
    (xs ys : Int → CachedInterpolation) (t : ResizeTrace)
    (hch : 0 ≤ channels) (hw : 0 ≤ out_width) (hh : 0 ≤ out_height) :
    (ResizeImageTraced images batch_size in_height in_width out_height out_width channels
      xs ys t).writes =
      t.writes ++
        (List.range (batch_size.toNat *
          (out_height.toNat * (out_width.toNat * channels.toNat)))).map
          (fun (k : Nat) => (k : Int)) := by
  simp only [ResizeImageTraced]
  have hnc : ((channels.toNat : Nat) : Int) = channels := Int.toNat_of_nonneg hch
  have hnw : ((out_width.toNat : Nat) : Int) = out_width := Int.toNat_of_nonneg hw
  have hnh : ((out_height.toNat : Nat) : Int) = out_height := Int.toNat_of_nonneg hh
  have h := loopUp_log_blocks ResizeTrace.writes
    (fun (b : Int) (t : ResizeTrace) =>
      loopUp out_height.toNat
        (resizeYTraced images in_width out_width channels (channels * in_height * in_width)
          (channels * out_height * out_width) xs ys b) t)
    0 (out_height.toNat * (out_width.toNat * channels.toNat))
    (by
      intro i t2
      have h2 := loopUp_log_blocks ResizeTrace.writes
        (resizeYTraced images in_width out_width channels (channels * in_height * in_width)
          (channels * out_height * out_width) xs ys i)
        (channels * out_height * out_width * i) (out_width.toNat * channels.toNat)
        (by
          intro j t3
          rw [resizeYTraced_writes _ _ _ _ _ _ _ _ _ _ _ hch]
          congr 1
          apply List.map_congr_left
          intro k _
          push_cast
          rw [hnc, hnw]
          ring)
        out_height.toNat t2
      simp only [] at h2 ⊢
      rw [h2]
      congr 1
      apply List.map_congr_left
      intro k _
      push_cast
      rw [hnc, hnw, hnh]
      ring)
    batch_size.toNat t
  simp only [] at h ⊢
  rw [h]
  congr 1
  apply List.map_congr_left
  intro k _
  ring

theorem index_pair_bound (i n j m : Int) (hi : 0 ≤ i) (hin : i < n) (hj : 0 ≤ j)
    (hjm : j < m) : 0 ≤ i * m + j ∧ i * m + j < n * m := by
  have hm : 0 ≤ m := by omega
  have h1 : (i + 1) * m ≤ n * m := mul_le_mul_of_nonneg_right (by omega) hm
  have h2 : 0 ≤ i * m := mul_nonneg hi hm
  constructor
  · linarith
  · linarith

theorem offset_bound (B H W C b y x c : Int) (hb : 0 ≤ b ∧ b < B) (hy : 0 ≤ y ∧ y < H)
    (hx : 0 ≤ x ∧ x < W) (hc : 0 ≤ c ∧ c < C) :
    0 ≤ C * H * W * b + y * W * C + x * C + c ∧
    C * H * W * b + y * W * C + x * C + c < B * H * W * C := by
  obtain ⟨a1, a2⟩ := index_pair_bound b B y H hb.1 hb.2 hy.1 hy.2
  obtain ⟨b1, b2⟩ := index_pair_bound (b * H + y) (B * H) x W a1 a2 hx.1 hx.2
  obtain ⟨c1, c2⟩ := index_pair_bound ((b * H + y) * W + x) (B * H * W) c C b1 b2 hc.1 hc.2
  have e : C * H * W * b + y * W * C + x * C + c = ((b * H + y) * W + x) * C + c := by ring
  rw [e]
  exact ⟨c1, c2⟩

/-- Every offset `ResizeImage` reads from `images` lies inside the input
buffer when the cached indices lie inside their axes. -/
theorem ResizeImageTraced_reads (images : Int → ℚ)
    (batch_size in_height in_width out_height out_width channels : Int)
    (xs ys : Int → CachedInterpolation) (t : ResizeTrace)
    (hxs : ∀ x : Nat, (x : Int) < out_width →
      (0 ≤ (xs x).lower ∧ (xs x).lower < in_width) ∧
      (0 ≤ (xs x).upper ∧ (xs x).upper < in_width))
    (hys : ∀ y : Nat, (y : Int) < out_height →
      (0 ≤ (ys y).lower ∧ (ys y).lower < in_height) ∧
      (0 ≤ (ys y).upper ∧ (ys y).upper < in_height))
    (ht : ∀ r ∈ t.reads, 0 ≤ r ∧ r < batch_size * in_height * in_width * channels) :
    ∀ r ∈ (ResizeImageTraced images batch_size in_height in_width out_height out_width
        channels xs ys t).reads,
      0 ≤ r ∧ r < batch_size * in_height * in_width * channels := by
  unfold ResizeImageTraced
  simp only []
  apply loopUp_induct (fun t : ResizeTrace =>
    ∀ r ∈ t.reads, 0 ≤ r ∧ r < batch_size * in_height * in_width * channels) _ _ _ _ ht
  intro b hb t1 ht1
  apply loopUp_induct (fun t : ResizeTrace =>
    ∀ r ∈ t.reads, 0 ≤ r ∧ r < batch_size * in_height * in_width * channels) _ _ _ _ ht1
  intro y hy t2 ht2
  unfold resizeYTraced
  simp only []
  apply loopUp_induct (fun t : ResizeTrace =>
    ∀ r ∈ t.reads, 0 ≤ r ∧ r < batch_size * in_height * in_width * channels) _ _ _ _ ht2
  intro x hx t3 ht3
  unfold resizeXTraced
  simp only []
  apply loopUp_induct (fun t : ResizeTrace =>
    ∀ r ∈ t.reads, 0 ≤ r ∧ r < batch_size * in_height * in_width * channels) _ _ _ _ ht3
  intro c hc t4 ht4 r hr
  have hb2 : (0 : Int) ≤ b ∧ (b : Int) < batch_size := by omega
  have hc2 : (0 : Int) ≤ c ∧ (c : Int) < channels := by omega
  obtain ⟨hyl, hyu⟩ := hys y (by omega)
  obtain ⟨hxl, hxu⟩ := hxs x (by omega)
  simp only [resizeCTraced, List.mem_append, List.mem_cons, List.mem_singleton,
    List.not_mem_nil, or_false] at hr
  rcases hr with hr | hr | hr | hr | hr
  · exact ht4 r hr
  · rw [hr]
    exact offset_bound _ _ _ _ _ _ _ _ hb2 hyl hxl hc2
  · rw [hr]
    exact offset_bound _ _ _ _ _ _ _ _ hb2 hyl hxu hc2
  · rw [hr]
    exact offset_bound _ _ _ _ _ _ _ _ hb2 hyu hxl hc2
  · rw [hr]
    exact offset_bound _ _ _ _ _ _ _ _ hb2 hyu hxu hc2

theorem count_cast_range (N : Nat) (p : Int) (h0 : 0 ≤ p) (h1 : p < (N : Int)) :
    ((List.range N).map (fun (k : Nat) => (k : Int))).count p = 1 := by
  apply List.count_eq_one_of_mem
  · exact List.Nodup.map (fun a b h => by exact_mod_cast h) (List.nodup_range N)
  · rw [List.mem_map]
    exact ⟨p.toNat, List.mem_range.mpr (by omega), Int.toNat_of_nonneg h0⟩

theorem mem_cast_range (N : Nat) (p : Int)
    (h : p ∈ (List.range N).map (fun (k : Nat) => (k : Int))) : 0 ≤ p ∧ p < (N : Int) := by
  rw [List.mem_map] at h
  obtain ⟨k, hk, rfl⟩ := h
  have := List.mem_range.mp hk
  omega

/-- C20: for an input of shape `(batch, in_h, in_w, channels)` with all extents
`>= 1` and a target `out_h, out_w >= 1` different from `(in_h, in_w)`, each call of
`ComputeInterpolationWeights` assigns only entries `0 .. out_size` of its cache,
every offset `ResizeImage` reads from the input lies in
`[0, batch * in_h * in_w * channels)`, every offset it writes lies in
`[0, batch * out_h * out_w * channels)` and each offset of that range is written
exactly once; the logged run is the one whose output the functor returns. -/
theorem Resize_accesses_in_bounds (self : ResizeBilinearFunctorBase)
    (input output : Tensor ℚ) (batch in_h in_w channels : Int)
    (hshape : input.shape = [batch, in_h, in_w, channels])
    (hbatch : 1 ≤ batch) (hih : 1 ≤ in_h) (hiw : 1 ≤ in_w) (hch : 1 ≤ channels)
    (hoh : 1 ≤ self.out_height_) (how : 1 ≤ self.out_width_)
    (hne : ¬ (self.out_height_ = in_h ∧ self.out_width_ = in_w)) :
    (∀ j ∈ (ComputeInterpolationWeightsTraced self.out_height_ in_h
        (CalculateResizeScale in_h self.out_height_ self.align_corners_)
        zeroInterpolation).writes, 0 ≤ j ∧ j ≤ self.out_height_) ∧
    (∀ j ∈ (ComputeInterpolationWeightsTraced self.out_width_ in_w
        (CalculateResizeScale in_w self.out_width_ self.align_corners_)
        zeroInterpolation).writes, 0 ≤ j ∧ j ≤ self.out_width_) ∧
    (∀ r ∈ (ResizeImageTraced input.data batch in_h in_w self.out_height_ self.out_width_
        channels
        (ComputeInterpolationWeightsTraced self.out_width_ in_w
          (CalculateResizeScale in_w self.out_width_ self.align_corners_)
          zeroInterpolation).cache
        (ComputeInterpolationWeightsTraced self.out_height_ in_h
          (CalculateResizeScale in_h self.out_height_ self.align_corners_)
          zeroInterpolation).cache
        { output := output.data, reads := [], writes := [] }).reads,
      0 ≤ r ∧ r < batch * in_h * in_w * channels) ∧
    (∀ p ∈ (ResizeImageTraced input.data batch in_h in_w self.out_height_ self.out_width_
        channels
        (ComputeInterpolationWeightsTraced self.out_width_ in_w
          (CalculateResizeScale in_w self.out_width_ self.align_corners_)
          zeroInterpolation).cache
        (ComputeInterpolationWeightsTraced self.out_height_ in_h
          (CalculateResizeScale in_h self.out_height_ self.align_corners_)
          zeroInterpolation).cache
        { output := output.data, reads := [], writes := [] }).writes,
      0 ≤ p ∧ p < batch * self.out_height_ * self.out_width_ * channels) ∧
    (∀ p : Int, 0 ≤ p → p < batch * self.out_height_ * self.out_width_ * channels →
      (ResizeImageTraced input.data batch in_h in_w self.out_height_ self.out_width_
        channels
        (ComputeInterpolationWeightsTraced self.out_width_ in_w
          (CalculateResizeScale in_w self.out_width_ self.align_corners_)
          zeroInterpolation).cache
        (ComputeInterpolationWeightsTraced self.out_height_ in_h
          (CalculateResizeScale in_h self.out_height_ self.align_corners_)
          zeroInterpolation).cache
        { output := output.data, reads := [], writes := [] }).writes.count p = 1) ∧
    ResizeBilinearFunctor self input output =
      Except.ok
        { shape := [batch, self.out_height_, self.out_width_, channels],
          data := (ResizeImageTraced input.data batch in_h in_w self.out_height_
            self.out_width_ channels
            (ComputeInterpolationWeightsTraced self.out_width_ in_w
              (CalculateResizeScale in_w self.out_width_ self.align_corners_)
              zeroInterpolation).cache
            (ComputeInterpolationWeightsTraced self.out_height_ in_h
              (CalculateResizeScale in_h self.out_height_ self.align_corners_)
              zeroInterpolation).cache
            { output := output.data, reads := [], writes := [] }).output } := by
  have hcx : (ComputeInterpolationWeightsTraced self.out_width_ in_w
      (CalculateResizeScale in_w self.out_width_ self.align_corners_)
      zeroInterpolation).cache = axisWeights in_w self.out_width_ self.align_corners_ :=
    ComputeInterpolationWeightsTraced_cache _ _ _ _
  have hcy : (ComputeInterpolationWeightsTraced self.out_height_ in_h
      (CalculateResizeScale in_h self.out_height_ self.align_corners_)
      zeroInterpolation).cache = axisWeights in_h self.out_height_ self.align_corners_ :=
    ComputeInterpolationWeightsTraced_cache _ _ _ _
  have hN : ((batch.toNat * (self.out_height_.toNat *
      (self.out_width_.toNat * channels.toNat)) : Nat) : Int) =
      batch * self.out_height_ * self.out_width_ * channels := by
    push_cast
    rw [Int.toNat_of_nonneg (by omega : (0 : Int) ≤ batch),
      Int.toNat_of_nonneg (by omega : (0 : Int) ≤ self.out_height_),
      Int.toNat_of_nonneg (by omega : (0 : Int) ≤ self.out_width_),
      Int.toNat_of_nonneg (by omega : (0 : Int) ≤ channels)]
    ring
  have hwrites := ResizeImageTraced_writes input.data batch in_h in_w self.out_height_
    self.out_width_ channels (axisWeights in_w self.out_width_ self.align_corners_)
    (axisWeights in_h self.out_height_ self.align_corners_)
    { output := output.data, reads := [], writes := [] }
    (by omega) (by omega) (by omega)
  simp only [List.nil_append] at hwrites
  rw [hcx, hcy]
  refine ⟨?_, ?_, ?_, ?_, ?_, ?_⟩
  · exact ComputeInterpolationWeightsTraced_writes _ _ _ _ (by omega)
  · exact ComputeInterpolationWeightsTraced_writes _ _ _ _ (by omega)
  · apply ResizeImageTraced_reads
    · intro x hx
      obtain ⟨-, -, h3, h4, h5⟩ := axisWeights_bounds in_w self.out_width_
        self.align_corners_ x hiw how ⟨by positivity, hx⟩
      exact ⟨⟨h3, by omega⟩, ⟨by omega, by omega⟩⟩
    · intro y hy
      obtain ⟨-, -, h3, h4, h5⟩ := axisWeights_bounds in_h self.out_height_
        self.align_corners_ y hih hoh ⟨by positivity, hy⟩
      exact ⟨⟨h3, by omega⟩, ⟨by omega, by omega⟩⟩
    · intro r hr
      simp at hr
  · intro p hp
    rw [hwrites] at hp
    have := mem_cast_range _ p hp
    rw [hN] at this
    exact this
  · intro p h0 h1
    rw [hwrites]
    exact count_cast_range _ p h0 (by rw [hN]; exact h1)
  · rw [ResizeImageTraced_output]
    exact ResizeBilinearFunctor_interpolated self input output batch in_h in_w channels
      hshape ⟨by omega, by omega⟩ hne

/-- C20, at a concrete input: a `(1, 2, 2, 1)` image resized to `(1, 1)`. -/
theorem Resize_accesses_in_bounds_witness :
    (∀ r ∈ (ResizeImageTraced (fun i => (i : ℚ) + 5) 1 2 2 1 1 1
        (ComputeInterpolationWeightsTraced 1 2 (CalculateResizeScale 2 1 false)
          zeroInterpolation).cache
        (ComputeInterpolationWeightsTraced 1 2 (CalculateResizeScale 2 1 false)
          zeroInterpolation).cache
        { output := fun _ => 0, reads := [], writes := [] }).reads,
      0 ≤ r ∧ r < 1 * 2 * 2 * 1) ∧
    (ResizeImageTraced (fun i => (i : ℚ) + 5) 1 2 2 1 1 1
        (ComputeInterpolationWeightsTraced 1 2 (CalculateResizeScale 2 1 false)
          zeroInterpolation).cache
        (ComputeInterpolationWeightsTraced 1 2 (CalculateResizeScale 2 1 false)
          zeroInterpolation).cache
        { output := fun _ => 0, reads := [], writes := [] }).writes.count 0 = 1 := by
  have h := Resize_accesses_in_bounds
    { align_corners_ := false, out_height_ := 1, out_width_ := 1 }
    ⟨[1, 2, 2, 1], fun i => (i : ℚ) + 5⟩ ⟨[], fun _ => 0⟩ 1 2 2 1 rfl
    (by decide) (by decide) (by decide) (by decide) (by decide) (by decide) (by decide)
  exact ⟨h.2.2.1, h.2.2.2.2.1 0 (by decide) (by decide)⟩

/-! ## Theorems: target-size check of resize -/

/-- C12: constructing the resize functor succeeds exactly when the size list has
two entries; for an input of shape `(batch, in_h, in_w, channels)` the call
fails exactly when `out_height <= 0` or `out_width <= 0`, and for positive
targets it returns an output of shape `(batch, out_height, out_width, channels)`. -/
theorem ResizeBilinearFunctor_target_size_check (self : ResizeBilinearFunctorBase)
    (input output : Tensor ℚ) (batch in_h in_w channels : Int) (size : List Int)
    (align_corners : Bool)
    (hshape : input.shape = [batch, in_h, in_w, channels]) :
    ((∃ f, ResizeBilinearFunctorBase.new size align_corners = Except.ok f) ↔
      size.length = 2) ∧
    ((∃ e, ResizeBilinearFunctor self input output = Except.error e) ↔
      (self.out_height_ ≤ 0 ∨ self.out_width_ ≤ 0)) ∧
    (0 < self.out_height_ → 0 < self.out_width_ →
      ∃ out, ResizeBilinearFunctor self input output = Except.ok out ∧
        out.shape = [batch, self.out_height_, self.out_width_, channels]) := by
  have hok : self.out_height_ > 0 ∧ self.out_width_ > 0 →
      ∃ out, ResizeBilinearFunctor self input output = Except.ok out ∧
        out.shape = [batch, self.out_height_, self.out_width_, channels] := by
    intro hpos
    by_cases hsame : self.out_height_ = in_h ∧ self.out_width_ = in_w
    · refine ⟨_, ResizeBilinearFunctor_same_size self input output batch in_h in_w channels
        hshape (by omega) hsame.1 hsame.2, ?_⟩
      rw [hsame.1, hsame.2]
    · exact ⟨_, ResizeBilinearFunctor_interpolated self input output batch in_h in_w
        channels hshape hpos hsame, rfl⟩
  refine ⟨?_, ?_, fun h1 h2 => hok ⟨h1, h2⟩⟩
  · rcases size with _ | ⟨a, _ | ⟨b, _ | ⟨c, l⟩⟩⟩ <;>
      simp [ResizeBilinearFunctorBase.new]
  · by_cases hpos : self.out_height_ > 0 ∧ self.out_width_ > 0
    · have hn : ¬ (self.out_height_ ≤ 0 ∨ self.out_width_ ≤ 0) := by omega
      obtain ⟨out, ho, -⟩ := hok hpos
      simp only [hn, iff_false, not_exists]
      intro e he
      rw [ho] at he
      cases he
    · have hn : self.out_height_ ≤ 0 ∨ self.out_width_ ≤ 0 := by omega
      simp only [hn, iff_true]
      refine ⟨Failure.check "", ?_⟩
      simp only [ResizeBilinearFunctor, Tensor.dim, hshape, bind, Except.bind, List.get?,
        if_neg hpos]
      rfl

/-- C12, at concrete inputs: a size list of three entries, a target `(0, 2)` and a
target `(3, 2)`. -/
theorem ResizeBilinearFunctor_target_size_check_witness :
    (¬ ∃ f, ResizeBilinearFunctorBase.new [3, 3, 3] false = Except.ok f) ∧
    (∃ e, ResizeBilinearFunctor { align_corners_ := false, out_height_ := 0, out_width_ := 2 }
      ⟨[1, 2, 2, 1], fun _ => 5⟩ ⟨[], fun _ => 0⟩ = Except.error e) ∧
    (∃ out, ResizeBilinearFunctor { align_corners_ := false, out_height_ := 3, out_width_ := 2 }
      ⟨[1, 2, 2, 1], fun _ => 5⟩ ⟨[], fun _ => 0⟩ = Except.ok out ∧
      out.shape = [1, 3, 2, 1]) := by
  have hA := ResizeBilinearFunctor_target_size_check
    { align_corners_ := false, out_height_ := 0, out_width_ := 2 }
    ⟨[1, 2, 2, 1], fun _ => 5⟩ ⟨[], fun _ => 0⟩ 1 2 2 1 [3, 3, 3] false rfl
  have hB := ResizeBilinearFunctor_target_size_check
    { align_corners_ := false, out_height_ := 3, out_width_ := 2 }
    ⟨[1, 2, 2, 1], fun _ => 5⟩ ⟨[], fun _ => 0⟩ 1 2 2 1 [3, 3, 3] false rfl
  exact ⟨fun hf => absurd (hA.1.mp hf) (by decide), hA.2.1.mpr (Or.inl (by decide)),
    hB.2.2 (by decide) (by decide)⟩

/-! ## Theorems: MatMul without a dimension check -/

section MatMulMismatch

variable {α : Type} [Semiring α]

/-- C13, refuted as stated: for `A` of shape `(1, 1, 2)` and `B` of shape
`(1, 3, 1)`, whose inner extents `2` and `3` differ, the CPU `MatMulFunctor`
returns an output of shape `(1, 1, 1, 1)`. -/
theorem MatMulFunctor_inner_mismatch_returns :
    ∃ C2 : Tensor Int,
      MatMulFunctor (⟨[1, 1, 2], fun i => i + 1⟩ : Tensor Int) ⟨[1, 3, 1], fun i => i + 3⟩
        ⟨[], fun _ => 0⟩ = Except.ok C2 ∧
      C2.shape = [1, 1, 1, 1] ∧ (2 : Int) ≠ 3 :=
  ⟨_, rfl, rfl, by decide⟩

/-- C13, amended: for `A` of shape `(N, H, K)` and `B` of shape `(N, K2, W)` with
`K2` at least `K`, equal or larger, the CPU `MatMulFunctor` returns an output of shape
`(N, H, W, 1)`; element `C[n, h, w]` is the sum over `k < K` of `A[n, h, k]` times the
element of `B`'s buffer at offset `(n * K + k) * W + w`, that is, `B` is read as if
its middle extent were `K`; and each of these offsets lies inside the `N * K2 * W`
elements of `B`.  (For `K2` below `K` the loop reads past the end of `B`; nothing is
stated about that case.) -/
theorem MatMulFunctor_unchecked_inner_dimension (A B C : Tensor α) (N H K K2 W : Int)
    (hA : A.shape = [N, H, K]) (hB : B.shape = [N, K2, W]) (hK : K ≤ K2) :
    ∃ C2 : Tensor α, MatMulFunctor A B C = Except.ok C2 ∧
      C2.shape = [N, H, W, 1] ∧
      (∀ n h w : Nat, (n : Int) < N → (h : Int) < H → (w : Int) < W →
        C2.at3 H W n h w =
          Finset.sum (Finset.range K.toNat)
            (fun k => A.at3 H K n h k * B.data (((n : Int) * K + k) * W + w))) ∧
      (∀ n k w : Nat, (n : Int) < N → (k : Int) < K → (w : Int) < W →
        0 ≤ ((n : Int) * K + k) * W + w ∧ ((n : Int) * K + k) * W + w < N * K2 * W) := by
  obtain ⟨-, -, -, -, hval⟩ :=
    matmulN_loop A.data B.data H W K N.toNat
      { a_ptr_base := 0, b_ptr_base := 0, c_ptr := 0, c := C.data }
  refine ⟨{ shape := [N, H, W, 1],
            data := (loopUp N.toNat (matmulN A.data B.data H W K)
              { a_ptr_base := 0, b_ptr_base := 0, c_ptr := 0, c := C.data }).c }, ?_, rfl, ?_, ?_⟩
  · simp [MatMulFunctor, Tensor.dim, Tensor.Resize, hA, hB, bind, Except.bind, pure,
      Except.pure]
  · intro n h w hn hh hw
    have hH : ((H.toNat : Nat) : Int) = H := Int.toNat_of_nonneg (by omega)
    have hW : ((W.toNat : Nat) : Int) = W := Int.toNat_of_nonneg (by omega)
    have h1 := hval n h w (by omega) (by omega) (by omega)
    simp only [hH, hW, zero_add] at h1
    have hoff : ((n : Int) * H + h) * W + w = (n : Int) * (H * W) + h * W + w := by ring
    simp only [Tensor.at3, hoff, h1, dotAt]
    apply Finset.sum_congr rfl
    intro k _
    congr 2 <;> ring
  · intro n k w hn hk hw
    obtain ⟨h0, h1⟩ := index_pair_bound (n : Int) N (k : Int) K (by omega) hn (by omega) hk
    obtain ⟨h2, h3⟩ :=
      index_pair_bound ((n : Int) * K + k) (N * K) (w : Int) W h0 h1 (by omega) hw
    have hNK : N * K ≤ N * K2 := mul_le_mul_of_nonneg_left hK (by omega)
    have hNKW : N * K * W ≤ N * K2 * W := mul_le_mul_of_nonneg_right hNK (by omega)
    exact ⟨h2, lt_of_lt_of_le h3 hNKW⟩

/-- C13, amended, at a concrete input: `A = [[1, 2]]` and a `B` of three rows
`3, 4, 5`, inner extents `2` and `3`, give `1 * 3 + 2 * 4 = 11`. -/
theorem MatMulFunctor_unchecked_inner_dimension_witness :
    (2 : Int) ≤ 3 ∧
    ∃ C2 : Tensor Int,
      MatMulFunctor (⟨[1, 1, 2], fun i => i + 1⟩ : Tensor Int) ⟨[1, 3, 1], fun i => i + 3⟩
        ⟨[], fun _ => 0⟩ = Except.ok C2 ∧
      C2.shape = [1, 1, 1, 1] ∧ C2.at3 1 1 0 0 0 = 11 := by
  refine ⟨by decide, ?_⟩
  obtain ⟨C2, h1, h2, h3, -⟩ :=
    MatMulFunctor_unchecked_inner_dimension (⟨[1, 1, 2], fun i => i + 1⟩ : Tensor Int)
      ⟨[1, 3, 1], fun i => i + 3⟩ ⟨[], fun _ => 0⟩ 1 1 2 3 1 rfl rfl (by decide)
  refine ⟨C2, h1, h2, ?_⟩
  have h4 := h3 0 0 0 (by decide) (by decide) (by decide)
  simpa [Tensor.at3, Finset.sum_range_succ] using h4

end MatMulMismatch

theorem toUint32_of_lt (x : Int) (h0 : 0 ≤ x) (h1 : x < 4294967296) : toUint32 x = x :=
  Int.emod_eq_of_lt h0 h1

theorem RoundUpDiv4_spec (c : Int) :
    c ≤ 4 * RoundUpDiv4 c ∧ ∀ b : Int, c ≤ 4 * b → RoundUpDiv4 c ≤ b := by
  unfold RoundUpDiv4
  constructor
  · omega
  · intro b hb
    omega

/-- C14, refuted as stated: for the output shape `(65536, 65536, 1, 1)` the
third component of the global work size is `static_cast<uint32_t>(65536 * 65536) = 0`,
so the work size is `(1, 1, 0)` and covers no element. -/
theorem Compute_work_size_wraps_uint32 :
    (EltwiseKernel.Compute plainRuntime (EltwiseKernel.new 0 [] 0 1)
        (shapeOnly [65536, 65536, 1, 1]) none (shapeOnly [])).map
      (fun r => (r.output.shape, r.launch.gws)) =
      Except.ok ([65536, 65536, 1, 1], [1, 1, 0]) ∧
    ¬ ((65536 : Int) * 65536 * 1 * 1 ≤ 4 * 1 * 1 * 0) :=
  ⟨rfl, by decide⟩

/-- C14, amended: for every output shape `(N, H, W, C)` with non-negative extents
for which `ceil(C / 4)`, `W` and `N * H` are below `2^32`, the global work size of a
successful `Compute` call is `(ceil(C / 4), W, N * H)`, where `ceil(C / 4)` is the
least integer `b` with `4 * b >= C`, and `4 * gws[0] * gws[1] * gws[2] >= N * H * W * C`. -/
theorem Compute_global_work_size {α : Type} (rt : OpenCLRuntime) (self : EltwiseKernel)
    (input0 : Tensor α) (input1 : Option (Tensor α)) (output : Tensor α)
    (r : ComputeResult α) (N H W C : Int)
    (h : EltwiseKernel.Compute rt self input0 input1 output = Except.ok r)
    (hshape : r.output.shape = [N, H, W, C])
    (hN : 0 ≤ N) (hH : 0 ≤ H) (hW : 0 ≤ W) (hC : 0 ≤ C)
    (hfit0 : RoundUpDiv4 C < 4294967296) (hfit1 : W < 4294967296)
    (hfit2 : N * H < 4294967296) :
    r.launch.gws = [RoundUpDiv4 C, W, N * H] ∧
    (C ≤ 4 * RoundUpDiv4 C ∧ ∀ b : Int, C ≤ 4 * b → RoundUpDiv4 C ≤ b) ∧
    N * H * W * C ≤ 4 * RoundUpDiv4 C * W * (N * H) := by
  obtain ⟨ci, d0, d1, d2, d3, rest, built, -, -, -, -, -, -, hout, hgws, -⟩ :=
    Compute_ok_inv rt self input0 input1 output r h
  rw [hout] at hshape
  simp only [List.cons.injEq, and_true] at hshape
  obtain ⟨e0, e1, e2, e3⟩ := hshape
  subst e0 e1 e2 e3
  have hr := RoundUpDiv4_spec d3
  have hr0 : 0 ≤ RoundUpDiv4 d3 := by unfold RoundUpDiv4; omega
  refine ⟨?_, hr, ?_⟩
  · rw [hgws, toUint32_of_lt _ hr0 hfit0, toUint32_of_lt _ hW hfit1,
      toUint32_of_lt _ (mul_nonneg hN hH) hfit2]
  · have h1 : 0 ≤ d0 * d1 * d2 := mul_nonneg (mul_nonneg hN hH) hW
    have h2 := mul_le_mul_of_nonneg_left hr.1 h1
    nlinarith

/-! ## Theorems: dimension reads and broadcast option of `Compute` -/

/-- C14, amended, at a concrete input: the shape `(1, 2, 2, 4)` gives `(1, 2, 2)`. -/
theorem Compute_global_work_size_witness :
    ∃ r : ComputeResult Unit,
      EltwiseKernel.Compute plainRuntime (EltwiseKernel.new 0 [] 0 1)
        (shapeOnly [1, 2, 2, 4]) none (shapeOnly []) = Except.ok r ∧
      r.launch.gws = [1, 2, 2] := by
  refine ⟨?r, ?h, ?c⟩
  case h => exact rfl
  case c =>
    exact (Compute_global_work_size plainRuntime (EltwiseKernel.new 0 [] 0 1) (shapeOnly [1, 2, 2, 4]) none
      (shapeOnly []) ?r 1 2 2 4 rfl rfl (by decide) (by decide) (by decide) (by decide)
      (by decide) (by decide) (by decide)).1

/-- C16, evaluated at the failing input: the pair `(4, 2, 2, 4)`, `(4)` passes the
validation, but the selection of the broadcast option reads `input1->dim(1)`
of the rank-1 operand (the base's batch equals the operand's length), so the
compiling call stops there and no `INPUT_TYPE` is chosen; with the base
`(3, 2, 2, 4)` the same operand gets `-DINPUT_TYPE=3`. -/
theorem Compute_rank1_operand_batch_equals_channels :
    checkInputs (shapeOnly [4, 2, 2, 4]) (some (shapeOnly [4])) =
      Except.ok { input0 := shapeOnly [4, 2, 2, 4], input1 := some (shapeOnly [4]),
                  swapped := false } ∧
    broadcastInputType (shapeOnly [4, 2, 2, 4]) (shapeOnly [4]) =
      Except.error Failure.dimOutOfRange ∧
    (EltwiseKernel.Compute plainRuntime (EltwiseKernel.new 0 [] 0 1)
        (shapeOnly [4, 2, 2, 4]) (some (shapeOnly [4])) (shapeOnly [])).map
      (fun r => r.launch.kernel.built_options) = Except.error Failure.dimOutOfRange ∧
    (EltwiseKernel.Compute plainRuntime (EltwiseKernel.new 0 [] 0 1)
        (shapeOnly [3, 2, 2, 4]) (some (shapeOnly [4])) (shapeOnly [])).map
      (fun r => r.launch.kernel.built_options) =
      Except.ok ["-Deltwise=eltwise", "-DDATA_TYPE=float", "-DCMD_DATA_TYPE=float",
        "-DELTWISE_TYPE=0", "-DINPUT_TYPE=3"] :=
  ⟨rfl, rfl, rfl, rfl⟩

/-- A `dim(i)` read has no value exactly when `i` is not smaller than the rank. -/
theorem Tensor.dim_out_of_range_iff {α : Type} (t : Tensor α) (i : Nat) :
    t.dim i = Except.error Failure.dimOutOfRange ↔ t.shape.length ≤ i := by
  unfold Tensor.dim
  cases h : t.shape.get? i with
  | none =>
    simp only [true_iff]
    exact List.get?_eq_none.mp h
  | some d =>
    constructor
    · intro h2
      cases h2
    · intro hle
      rw [List.get?_eq_none.mpr hle] at h
      cases h

/-- C19, evaluated at two failing inputs.  The pair `(4)`, `(1, 1, 1, 4)` passes the
validation with the rank-1 `input0` as base, and building the output shape
reads `input0->dim(1)` past its rank.  The pair `(4)`, `(4, 2, 2, 4)` passes the
validation, the output shape is built from the rank-4 base, and selecting the
broadcast option reads `input1->dim(1)` of the rank-1 operand. -/
theorem Compute_reads_dim_past_rank :
    (checkInputs (shapeOnly [4]) (some (shapeOnly [1, 1, 1, 4])) =
        Except.ok { input0 := shapeOnly [4], input1 := some (shapeOnly [1, 1, 1, 4]),
                    swapped := false } ∧
      (shapeOnly [4]).dim 1 = Except.error Failure.dimOutOfRange ∧
      outputShape (shapeOnly [4]) = Except.error Failure.dimOutOfRange) ∧
    (checkInputs (shapeOnly [4]) (some (shapeOnly [4, 2, 2, 4])) =
        Except.ok { input0 := shapeOnly [4, 2, 2, 4], input1 := some (shapeOnly [4]),
                    swapped := true } ∧
      outputShape (shapeOnly [4, 2, 2, 4]) = Except.ok [4, 2, 2, 4] ∧
      (shapeOnly [4]).dim 1 = Except.error Failure.dimOutOfRange ∧
      broadcastInputType (shapeOnly [4, 2, 2, 4]) (shapeOnly [4]) =
        Except.error Failure.dimOutOfRange) :=
  ⟨⟨rfl, rfl, rfl⟩, ⟨rfl, rfl, rfl, rfl⟩⟩

theorem andE_ok_left (x : Bool) (y : Except Failure Bool) :
    andE (Except.ok x) y = if x then y else Except.ok false := by
  cases x <;> rfl

/-- The option chosen for a rank-4 smaller operand. -/
theorem broadcastInputType_rank4 {α : Type} (b o : Tensor α) (n h w c n2 h2 w2 c2 : Int)
    (hb : b.shape = [n, h, w, c]) (ho : o.shape = [n2, h2, w2, c2]) :
    broadcastInputType b o =
      Except.ok (if n = n2 ∧ h = h2 ∧ w = w2 ∧ c2 = 1 then "-DINPUT_TYPE=4"
        else if n2 = 1 then "-DINPUT_TYPE=3" else "-DINPUT_TYPE=2") := by
  obtain ⟨b0, b1, b2, b3⟩ := Tensor.dim_of_shape4 b _ _ _ _ hb
  obtain ⟨o0, o1, o2, o3⟩ := Tensor.dim_of_shape4 o _ _ _ _ ho
  have hr : ¬ (o.dim_size = 1) := by simp [Tensor.dim_size, ho]
  simp only [broadcastInputType, b0, b1, b2, o0, o1, o2, o3, eqE_ok, eqE_ok_pure, andE_ok,
    orE_ok_pure, bind, Except.bind, pure, Except.pure, hr, decide_False, Bool.or_false]
  by_cases hs : n = n2 ∧ h = h2 ∧ w = w2 ∧ c2 = 1
  · have : (decide (n = n2) && decide (h = h2) && decide (w = w2) && decide (c2 = 1)) = true := by
      simp [hs.1, hs.2.1, hs.2.2.1, hs.2.2.2]
    simp [this, hs]
  · have : (decide (n = n2) && decide (h = h2) && decide (w = w2) && decide (c2 = 1)) = false := by
      rw [Bool.eq_false_iff]
      intro ht
      simp only [Bool.and_eq_true, decide_eq_true_eq] at ht
      exact hs ⟨ht.1.1.1, ht.1.1.2, ht.1.2, ht.2⟩
    simp only [this, if_neg hs]
    by_cases h1 : n2 = 1 <;> simp [h1, orE_ok]

/-- The option chosen for a rank-1 smaller operand: `-DINPUT_TYPE=3` unless the
operand's length equals the base's batch, in which case `input1->dim(1)` is
read past the rank. -/
theorem broadcastInputType_rank1 {α : Type} (b o : Tensor α) (n h w c d : Int)
    (hb : b.shape = [n, h, w, c]) (ho : o.shape = [d]) :
    broadcastInputType b o =
      if n = d then Except.error Failure.dimOutOfRange else Except.ok "-DINPUT_TYPE=3" := by
  obtain ⟨b0, b1, b2, b3⟩ := Tensor.dim_of_shape4 b _ _ _ _ hb
  have o0 : o.dim 0 = Except.ok d := by simp [Tensor.dim, ho]
  have o1 : o.dim 1 = Except.error Failure.dimOutOfRange := by simp [Tensor.dim, ho]
  have hr : o.dim_size = 1 := by simp [Tensor.dim_size, ho]
  by_cases hnd : n = d
  · simp only [broadcastInputType, b0, b1, o0, o1, eqE_ok, andE_ok_left, hnd, decide_True,
      if_true, bind, Except.bind, eqE]
    rfl
  · simp only [broadcastInputType, b0, o0, eqE_ok, eqE_ok_pure, andE_ok_left, hnd, decide_False,
      bind, Except.bind, pure, Except.pure, orE_ok, hr, decide_True, Bool.or_true,
      if_false, Bool.false_eq_true, if_true]

end mace
